import Mathlib

/-! Shallow embedding and verification of `ram-savings.c`.

Embedding of `2024/scripts/ram-savings.c`.  The program walks `/proc/<pid>/maps`
of every process, resolves every page of a shared-library mapping through
`/proc/<pid>/pagemap` to a physical frame number, reads the mapping count of the
frame from `/proc/kpagecount` into the table `counts`, and finally sums
`counts[pfn] - 1` over the table.

Conventions of the embedding.

* C integers are `Int`/`Nat`; conversions between widths are written out
  (`to_long`, `to_int`, `to_ulong`).
* A failed `CHECK` is the outcome `Abort.fatal`; C undefined behaviour whose
  effect cannot be told from the program (signed overflow, division by zero, an
  access outside `counts` or outside the known part of the buffer `line`) is
  the outcome `Abort.undefined`.
* The variables that the loop body of `analyze_pid` declares without
  initialiser keep, from one iteration to the next and from one call to the
  next, the contents that were left in them (`Frame`): `sscanf` does not assign
  the variables of the directives it does not reach, and the program goes on
  with what they hold.  The contents at the first call are a parameter of `main`.
* Files are functions from byte offsets to the 8-byte record found there; the
  text file `maps` is the list of strings returned by the successive `fgets`
  calls.
-/

namespace RamSavings

/-! ## Machine integers -/

/-- Largest value of the C type `long` (LP64). -/
def LONG_MAX : Int := 2 ^ 63 - 1

/-- Smallest value of the C type `long` (LP64). -/
def LONG_MIN : Int := -(2 ^ 63)

/-- Largest value of the C type `int`. -/
def INT_MAX : Int := 2 ^ 31 - 1

/-- Smallest value of the C type `int`. -/
def INT_MIN : Int := -(2 ^ 31)

/-- Conversion of an integer value to `long`: reduction modulo `2^64` into
`[-2^63, 2^63)`. -/
def to_long (n : Int) : Int := (n + 2 ^ 63) % 2 ^ 64 - 2 ^ 63

/-- Conversion of an integer value to `int`: reduction modulo `2^32` into
`[-2^31, 2^31)`; this is what `counts[pfn] = count` does to the `uint64_t`
value `count`. -/
def to_int (n : Int) : Int := (n + 2 ^ 31) % 2 ^ 32 - 2 ^ 31

/-- Conversion of a `long` to `unsigned long` (the usual arithmetic conversion in
`pfn < max_pages`). -/
def to_ulong (n : Int) : Nat := (n % 2 ^ 64).toNat

/-! ## C strings -/

/-- The C string stored in a buffer: the characters before the first NUL. -/
def cstr : List Char → List Char
  | [] => []
  | c :: cs => if c = Char.ofNat 0 then [] else c :: cstr cs

/-- The NUL character. -/
def NUL : Char := Char.ofNat 0

/-- Model of `strspn(s, accept)` for a pointer `s` into a buffer whose known
contents from `s` on are the list: length of the initial segment made of
characters of `accept`; `none` when the scan leaves the known part of the
buffer. -/
def strspn : List Char → List Char → Option Nat
  | [], _ => none
  | c :: cs, accept => if c ∈ accept then (strspn cs accept).map (· + 1) else some 0

/-- Model of `strchr(s, c)` for a pointer `s` into a buffer: `some (some k)` when
the first occurrence of `c` is at `s + k`, `some none` when the terminating NUL
comes first (`strchr` returns `NULL`), `none` when the scan leaves the known
part of the buffer. -/
def strchr : List Char → Char → Option (Option Nat)
  | [], _ => none
  | d :: ds, c =>
    if d = c then some (some 0)
    else if d = NUL then some none
    else (strchr ds c).map (fun r => r.map (· + 1))

/-- Model of `strstr(haystack, needle)`: index of the first occurrence of
`needle` in `haystack`, if any. -/
def strstr : List Char → List Char → Option Nat
  | [], needle => if needle = [] then some 0 else none
  | c :: cs, needle =>
    if needle.isPrefixOf (c :: cs) then some 0 else (strstr cs needle).map (· + 1)

/-- Model of `strcmp(a, b) == 0`. -/
def strcmp_eq (a b : List Char) : Bool := decide (a = b)

/-! ## The shareability filter (lines 87-93 of `analyze_pid`) -/

/-- The decision taken at lines 87-93: `true` when the loop body goes on to
"Analyze range", `false` when it executes `continue`.

```c
int is_shareable = strcmp("r-xp", perms) == 0;
if (data) {
  is_shareable |= strcmp("r--p", perms) == 0;
}
if (!is_shareable || !inode || !strstr(soname, ".so"))
  continue;
```
-/
def region_selected (data : Int) (perms : List Char) (inode : Int)
    (soname : List Char) : Bool :=
  let is_shareable := strcmp_eq ['r', '-', 'x', 'p'] perms
  let is_shareable :=
    if data ≠ 0 then is_shareable || strcmp_eq ['r', '-', '-', 'p'] perms
    else is_shareable
  if !is_shareable || inode == 0 || (strstr soname ['.', 's', 'o']).isNone then false
  else true

/-- The value of `is_shareable` after lines 87-90. -/
def is_shareable (data : Int) (perms : List Char) : Bool :=
  let is_shareable := strcmp_eq ['r', '-', 'x', 'p'] perms
  if data ≠ 0 then is_shareable || strcmp_eq ['r', '-', '-', 'p'] perms else is_shareable

/-! ## `sscanf(line, "%lx-%lx %4s %ld %ld:%ld %ld%n", ...)` (lines 74-79)

`sscanf` is a library function; it is modelled after the C standard (7.21.6.2)
with the choices of glibc where the standard leaves the result open (a value
that does not fit is clamped as by `strtol`/`strtoul`; a `0x` prefix is
accepted by `%lx`).  Arguments whose directive is not reached keep the contents
they had before the call. -/

/-- Model of `isspace` in the "C" locale. -/
def isspace (c : Char) : Bool :=
  c == ' ' || c == '\t' || c == '\n' || c == Char.ofNat 11 || c == Char.ofNat 12 || c == '\r'

/-- A white-space directive, and the white space skipped before `%lx`, `%ld`
and `%s`. -/
def skip_space : List Char → List Char
  | [] => []
  | c :: cs => if isspace c then skip_space cs else c :: cs

/-- Value of the character `c` as a digit in base `base`, if it is one. -/
def digit_val (base : Nat) (c : Char) : Option Nat :=
  let n := c.toNat
  let d : Option Nat :=
    if 48 ≤ n ∧ n ≤ 57 then some (n - 48)
    else if 97 ≤ n ∧ n ≤ 102 then some (n - 87)
    else if 65 ≤ n ∧ n ≤ 70 then some (n - 55)
    else none
  match d with
  | some k => if k < base then some k else none
  | none => none

/-- Reads the longest run of digits of base `base`: the value read (on top of
`acc`), the number of digits (on top of `k`) and the rest of the input. -/
def scan_digits (base : Nat) : List Char → Nat → Nat → Nat × Nat × List Char
  | [], acc, k => (acc, k, [])
  | c :: cs, acc, k =>
    match digit_val base c with
    | some d => scan_digits base cs (acc * base + d) (k + 1)
    | none => (acc, k, c :: cs)

/-- Result of one conversion directive. -/
inductive Conv (α : Type) where
  | ok (val : α) (rest : List Char)
  | input_failure
  | matching_failure

/-- The input item of `%lx` (`base = 16`) and `%ld` (`base = 10`): optional
white space, optional sign, digits.  Yields the sign and the magnitude. -/
def scan_integer (base : Nat) (s : List Char) : Conv (Bool × Nat) :=
  match skip_space s with
  | [] => .input_failure
  | c :: cs =>
    let body := if c == '-' || c == '+' then cs else c :: cs
    let body :=
      match body with
      | '0' :: x :: t => if base = 16 ∧ (x == 'x' || x == 'X') then '0' :: t else body
      | _ => body
    match scan_digits base body 0 0 with
    | (v, k, rest) => if k = 0 then .matching_failure else .ok (c == '-', v) rest

/-- Value stored by `%lx` into the `long` it is given: `strtoul` in base 16
(clamped to `ULONG_MAX`, negated modulo `2^64` after a minus sign), read as
`long`. -/
def conv_lx (neg : Bool) (v : Nat) : Int :=
  if 2 ^ 64 ≤ v then to_long (2 ^ 64 - 1)
  else if neg then to_long (-(v : Int)) else to_long v

/-- Value stored by `%ld`: `strtol` in base 10, clamped to the range of `long`. -/
def conv_ld (neg : Bool) (v : Nat) : Int :=
  if neg then (if 2 ^ 63 < v then LONG_MIN else -(v : Int))
  else (if 2 ^ 63 ≤ v then LONG_MAX else (v : Int))

/-- At most `width` leading characters that are not white space. -/
def take_word : Nat → List Char → List Char
  | 0, _ => []
  | _, [] => []
  | n + 1, c :: cs => if isspace c then [] else c :: take_word n cs

/-- The directive `%4s` (`width = 4`). -/
def scan_word (width : Nat) (s : List Char) : Conv (List Char) :=
  match skip_space s with
  | [] => .input_failure
  | c :: cs =>
    let w := take_word width (c :: cs)
    .ok w ((c :: cs).drop w.length)

/-- An ordinary character of the format (`-` and `:`). -/
def scan_char (ch : Char) : List Char → Conv Unit
  | [] => .input_failure
  | c :: cs => if c == ch then .ok () cs else .matching_failure

/-- The variables `sscanf` is given at lines 74-79.  `none` stands for the
contents of a `long`/`int` about which nothing is known. -/
structure ScanVars where
  begin : Option Int
  end_ : Option Int
  perms : List Char
  off : Option Int
  major : Option Int
  minor : Option Int
  inode : Option Int
  prefix_len : Option Int

/-- The variables as declared at lines 74-76 when nothing is known about what
the uninitialised ones hold: only `perms` is initialised (`char perms[5] = {}`). -/
def fresh_vars : ScanVars :=
  { begin := none, end_ := none, perms := [], off := none, major := none,
    minor := none, inode := none, prefix_len := none }

/-- The value `EOF` returned by `sscanf`. -/
def EOF : Int := -1

/-- Model of `sscanf(line, "%lx-%lx %4s %ld %ld:%ld %ld%n", &begin, &end, perms,
&off, &major, &minor, &inode, &prefix_len)`: the returned value (number of
conversions, or `EOF`) and the variables after the call, starting from the
contents `v`. -/
def sscanf_maps (line : List Char) (v : ScanVars) : Int × ScanVars :=
  let s := cstr line
  match scan_integer 16 s with                                   -- %lx
  | .input_failure => (EOF, v)
  | .matching_failure => (0, v)
  | .ok (n, x) s =>
  let v := { v with begin := some (conv_lx n x) }
  match scan_char '-' s with                                     -- -
  | .input_failure => (1, v)
  | .matching_failure => (1, v)
  | .ok _ s =>
  match scan_integer 16 s with                                   -- %lx
  | .input_failure => (1, v)
  | .matching_failure => (1, v)
  | .ok (n, x) s =>
  let v := { v with end_ := some (conv_lx n x) }
  match scan_word 4 (skip_space s) with                          -- " %4s"
  | .input_failure => (2, v)
  | .matching_failure => (2, v)
  | .ok w s =>
  let v := { v with perms := w }
  match scan_integer 10 (skip_space s) with                      -- " %ld"
  | .input_failure => (3, v)
  | .matching_failure => (3, v)
  | .ok (n, x) s =>
  let v := { v with off := some (conv_ld n x) }
  match scan_integer 10 (skip_space s) with                      -- " %ld"
  | .input_failure => (4, v)
  | .matching_failure => (4, v)
  | .ok (n, x) s =>
  let v := { v with major := some (conv_ld n x) }
  match scan_char ':' s with                                     -- :
  | .input_failure => (5, v)
  | .matching_failure => (5, v)
  | .ok _ s =>
  match scan_integer 10 s with                                   -- %ld
  | .input_failure => (5, v)
  | .matching_failure => (5, v)
  | .ok (n, x) s =>
  let v := { v with minor := some (conv_ld n x) }
  match scan_integer 10 (skip_space s) with                      -- " %ld"
  | .input_failure => (6, v)
  | .matching_failure => (6, v)
  | .ok (n, x) s =>
  let v := { v with inode := some (conv_ld n x) }
  (7, { v with prefix_len := some (((cstr line).length : Int) - s.length) })  -- %n

/-! ## Outcomes, files and the state of a run -/

/-- The `CHECK`s of the program, named after their message. -/
inductive Check where
  /-- Message `"failed to open maps file"`. -/
  | maps_open
  /-- Message `"failed to open pagemap file"`. -/
  | pagemap_open
  /-- Message `"pagemap fseek failed"`. -/
  | pagemap_fseek
  /-- Message `"pagemap fread failed"`. -/
  | pagemap_fread
  /-- Message `"PFN too large"`. -/
  | pfn_too_large
  /-- Message `"kpagecount fseek failed"`. -/
  | kpagecount_fseek
  /-- Message `"kpagecount fread failed"`. -/
  | kpagecount_fread
  /-- Message `"need to run under root"`. -/
  | need_root
  /-- Message `"failed to obtain pagesize"`. -/
  | pagesize
  /-- Message `"failed to obtain page count"`. -/
  | page_count
  /-- Message `"failed to open /proc/kpagecount"`. -/
  | kpagecount_open
  deriving DecidableEq, Repr

/-- The ways a run ends before `return 0`. -/
inductive Abort where
  /-- A `CHECK` failed: message on `stderr`, then `assert(0)`/`exit(1)`. -/
  | fatal (c : Check)
  /-- The C program has no defined behaviour from here on. -/
  | undefined
  deriving DecidableEq, Repr

/-- A binary file of 8-byte records: `f off` is the value `fread` delivers for
the 8 bytes at byte offset `off`, `none` when fewer than 8 bytes are there. -/
abbrev BinFile := Nat → Option Nat

/-- The files of one process: `maps` is the list of strings the successive
`fgets(line, sizeof(line), maps)` calls return, `none` when `fopen` fails. -/
structure Proc where
  maps : Option (List (List Char))
  pagemap : Option BinFile

/-- What the program sees of the host. -/
structure Host where
  /-- `getuid()` -/
  uid : Nat
  /-- `sysconf(_SC_PAGESIZE)` -/
  sc_pagesize : Int
  /-- `sysconf(_SC_PHYS_PAGES)` -/
  sc_phys_pages : Int
  /-- `/proc/<pid>/maps` and `/proc/<pid>/pagemap` -/
  proc : Int → Proc
  /-- `/proc/kpagecount` -/
  kpagecount : Option BinFile

/-- The mutable state of a run: the table `counts` and, as a ghost trace, the
frame numbers whose record was sought and read in `kpagecount`, in order. -/
structure State where
  counts : List Int
  kreads : List Nat
  deriving DecidableEq, Repr

/-- Result of a piece of the program: the new state, or the abort together with
the state at the abort. -/
abbrev Result := Except (Abort × State) State

/-- The variables that the loop body of `analyze_pid` declares without
initialiser (`line` at line 66, `begin` to `inode` at line 74, `prefix_len` at
line 76) with what the previous iteration, or the previous call, left in them.
`line` is the known contents of the buffer from its start; the field `perms` of
`vars` is not used, `perms` being initialised at every iteration. -/
structure Frame where
  vars : ScanVars
  line : List Char

/-- Result of a piece of `analyze_pid`: the variables left behind and the new
state, or the abort together with the state at the abort. -/
abbrev FrameResult := Except (Abort × State) (Frame × State)

/-! ## `analyze_pid` (lines 53-131) -/

/-- One iteration of the page loop (lines 101-125) for the virtual page `page`.

```c
int ret = fseek(pagemap, 8 * page, SEEK_SET);
CHECK(ret == 0, "pagemap fseek failed");
uint64_t flags;
size_t nread = fread(&flags, sizeof(flags), 1, pagemap);
CHECK(nread == 1, "pagemap fread failed");
if ((flags >> 63) != 1) continue;
uint64_t pfn = flags & ((1UL << 55) - 1);
CHECK(pfn < max_pages, "PFN too large");
if (counts[pfn]) continue;
ret = fseek(kpagecount, 8 * pfn, SEEK_SET);
CHECK(ret == 0, "kpagecount fseek failed");
uint64_t count;
nread = fread(&count, sizeof(count), 1, kpagecount);
CHECK(nread == 1, "kpagecount fread failed");
counts[pfn] = count;
```
-/
def resolve_page (pagemap kpagecount : BinFile) (max_pages : Int) (page : Int)
    (st : State) : Result :=
  let off : Int := 8 * page
  if off < LONG_MIN ∨ LONG_MAX < off then .error (.undefined, st) else
  if off < 0 then .error (.fatal .pagemap_fseek, st) else
  match pagemap off.toNat with
  | none => .error (.fatal .pagemap_fread, st)
  | some w =>
    let flags : Nat := w % 2 ^ 64
    if flags >>> 63 ≠ 1 then .ok st else
    let pfn : Nat := flags &&& ((1 <<< 55) - 1)
    if ¬ (pfn < to_ulong max_pages) then .error (.fatal .pfn_too_large, st) else
    match st.counts[pfn]? with
    | none => .error (.undefined, st)
    | some c =>
      if c ≠ 0 then .ok st else
      let koff : Int := to_long (((8 * pfn) % 2 ^ 64 : Nat) : Int)
      if koff < 0 then .error (.fatal .kpagecount_fseek, st) else
      let st : State := { st with kreads := st.kreads ++ [pfn] }
      match kpagecount koff.toNat with
      | none => .error (.fatal .kpagecount_fread, st)
      | some count =>
        .ok { st with counts := st.counts.set pfn (to_int ((count % 2 ^ 64 : Nat) : Int)) }

/-- The loop `for (long page = begin; page < end; ++page)` with `n` iterations
left and the loop variable at `page`. -/
def scan_range (pagemap kpagecount : BinFile) (max_pages : Int) :
    Nat → Int → State → Result
  | 0, _, st => .ok st
  | n + 1, page, st =>
    match resolve_page pagemap kpagecount max_pages page st with
    | .error e => .error e
    | .ok st => scan_range pagemap kpagecount max_pages n (page + 1) st

/-- Division of `long`s as in `begin /= pagesize`: truncating, undefined for a
zero divisor and for `LONG_MIN / -1`. -/
def long_div (a b : Int) : Option Int :=
  if b = 0 ∨ (a = LONG_MIN ∧ b = -1) then none else some (Int.tdiv a b)

/-- Effect of `fgets(line, sizeof(line), maps)` that delivers the string `s`: the
characters of `s` and a NUL are stored at the start of the buffer, the rest of
the buffer keeps its contents. -/
def fgets_into (line s : List Char) : List Char :=
  s ++ NUL :: line.drop (s.length + 1)

/-- The known contents of a buffer from index `n` on, `none` for an index behind
the known part of the buffer. -/
def drop_known : List Char → Nat → Option (List Char)
  | l, 0 => some l
  | [], _ + 1 => none
  | _ :: l, n + 1 => drop_known l n

/-- The pointer `&line[i]`: the known contents of the buffer from index `i` on,
`none` for an index outside the known part of the buffer. -/
def at_index (line : List Char) (i : Int) : Option (List Char) :=
  if i < 0 then none else drop_known line i.toNat

/-- What lines 67-98 decide for one line of `maps`. -/
inductive LineAct where
  /-- No defined behaviour. -/
  | undefined
  /-- The `continue` of line 93. -/
  | skip
  /-- The page loop of line 100 with `page` starting at `begin` for `n`
  iterations. -/
  | scan (begin : Int) (n : Nat)
  deriving DecidableEq, Repr

/-- Lines 67-98 of the loop body for the string `s` delivered by `fgets`,
starting from the variables `fr`: the variables afterwards and what the body
does next.

```c
char *tmp = fgets(line, sizeof(line), maps);
long begin, end, off, major, minor, inode;
char perms[5] = {};
int prefix_len;
sscanf(line, "%lx-%lx %4s %ld %ld:%ld %ld%n",
       &begin, &end, perms, &off, &major, &minor, &inode, &prefix_len);
prefix_len += strspn(&line[prefix_len], " ");
char *soname = &line[prefix_len];
char *soname_end = strchr(soname, '\n');
if (soname_end) *soname_end = 0;
int is_shareable = strcmp("r-xp", perms) == 0;
if (data) { is_shareable |= strcmp("r--p", perms) == 0; }
if (!is_shareable || !inode || !strstr(soname, ".so")) continue;
begin /= pagesize;
end /= pagesize;
```
-/
def parse_line (pagesize data : Int) (s : List Char) (fr : Frame) : Frame × LineAct :=
  let line := fgets_into fr.line s
  let v := (sscanf_maps line { fr.vars with perms := [] }).2
  match v.prefix_len with
  | none => ({ vars := v, line := line }, .undefined)
  | some prefix_len =>
    match at_index line prefix_len with
    | none => ({ vars := v, line := line }, .undefined)
    | some p =>
      match strspn p [' '] with
      | none => ({ vars := v, line := line }, .undefined)
      | some k =>
        let prefix_len := prefix_len + k
        let v := { v with prefix_len := some prefix_len }
        let soname := p.drop k
        match strchr soname '\n' with
        | none => ({ vars := v, line := line }, .undefined)
        | some soname_end =>
          let line :=
            match soname_end with
            | some j => line.set (prefix_len.toNat + j) NUL
            | none => line
          let soname :=
            match soname_end with
            | some j => soname.take j
            | none => cstr soname
          if is_shareable data v.perms = false then ({ vars := v, line := line }, .skip) else
          match v.inode with
          | none => ({ vars := v, line := line }, .undefined)
          | some inode =>
            if region_selected data v.perms inode soname = false then
              ({ vars := v, line := line }, .skip)
            else
              match v.begin, v.end_ with
              | some b, some e =>
                match long_div b pagesize, long_div e pagesize with
                | some b, some e =>
                  ({ vars := { v with begin := some b, end_ := some e }, line := line },
                    .scan b (e - b).toNat)
                | _, _ => ({ vars := v, line := line }, .undefined)
              | _, _ => ({ vars := v, line := line }, .undefined)

/-- The body of the `while` loop of `analyze_pid` (lines 67-126) for the string
`s` delivered by `fgets`. -/
def analyze_line (pagemap kpagecount : BinFile) (max_pages pagesize : Int) (data : Int)
    (s : List Char) (fr : Frame) (st : State) : FrameResult :=
  match parse_line pagesize data s fr with
  | (_, .undefined) => .error (.undefined, st)
  | (fr, .skip) => .ok (fr, st)
  | (fr, .scan begin n) =>
    match scan_range pagemap kpagecount max_pages n begin st with
    | .error e => .error e
    | .ok st => .ok (fr, st)

/-- The loop `while (!feof(maps))` over the strings `fgets` delivers. -/
def maps_loop (pagemap kpagecount : BinFile) (max_pages pagesize : Int) (data : Int) :
    List (List Char) → Frame → State → FrameResult
  | [], fr, st => .ok (fr, st)
  | s :: lines, fr, st =>
    match analyze_line pagemap kpagecount max_pages pagesize data s fr st with
    | .error e => .error e
    | .ok (fr, st) => maps_loop pagemap kpagecount max_pages pagesize data lines fr st

/-- `analyze_pid(pid, counts, max_pages, pagesize, kpagecount, data)`; `counts`
is the table of the state `st`, `fr` is what the uninitialised variables of the
loop body hold on entry. -/
def analyze_pid (h : Host) (pid : Int) (st : State) (max_pages pagesize : Int)
    (kpagecount : BinFile) (data : Int) (fr : Frame) : FrameResult :=
  match (h.proc pid).maps with
  | none => .error (.fatal .maps_open, st)
  | some lines =>
    match (h.proc pid).pagemap with
    | none => .error (.fatal .pagemap_open, st)
    | some pagemap => maps_loop pagemap kpagecount max_pages pagesize data lines fr st

/-! ## `main` (lines 158-210) -/

/-- The loop of lines 197-199 over the collected pids. -/
def analyze_all (h : Host) (max_pages pagesize : Int) (kpagecount : BinFile) (data : Int) :
    List Int → Frame → State → FrameResult
  | [], fr, st => .ok (fr, st)
  | pid :: pids, fr, st =>
    match analyze_pid h pid st max_pages pagesize kpagecount data fr with
    | .error e => .error e
    | .ok (fr, st) => analyze_all h max_pages pagesize kpagecount data pids fr st

/-- The loop of lines 206-210 with `n` iterations left, the loop variable at
`pfn` and the total so far in `saved`.  `counts[pfn] - 1` is computed in `int`,
the total in `long`.

```c
long saved = 0;
for (long pfn = 0; pfn < max_pages; ++pfn) {
  if (counts[pfn])
    saved += counts[pfn] - 1;
}
```
-/
def saved_loop (counts : List Int) : Nat → Nat → Int → Option Int
  | 0, _, saved => some saved
  | n + 1, pfn, saved =>
    match counts[pfn]? with
    | none => none
    | some c =>
      if c ≠ 0 then
        let d := c - 1
        if d < INT_MIN then none else
        let s := saved + d
        if s < LONG_MIN ∨ LONG_MAX < s then none else saved_loop counts n (pfn + 1) s
      else saved_loop counts n (pfn + 1) saved

/-- The value of `saved` after the loop of lines 206-210. -/
def saved_pages (counts : List Int) (max_pages : Int) : Option Int :=
  saved_loop counts max_pages.toNat 0 0

/-- The part of `main` from line 158 to line 210, for the list `pids` of process
identifiers (the `-p` argument or the result of `collect_pids`), the flag
`data` (`-d`) and the contents `fr` of the uninitialised variables of
`analyze_pid` at its first call: the final state and the value of `saved`.  The
verbosity `v` starts at 1 and is only incremented, so the product
`pagesize * max_pages` of line 171 is always computed.  `calloc` is taken to
succeed. -/
def main (h : Host) (pids : List Int) (data : Int) (fr : Frame) :
    Except (Abort × State) (State × Int) :=
  let st0 : State := { counts := [], kreads := [] }
  if h.uid ≠ 0 then .error (.fatal .need_root, st0) else
  let pagesize := h.sc_pagesize
  if ¬ (pagesize > 0) then .error (.fatal .pagesize, st0) else
  let max_pages := 2 * h.sc_phys_pages
  if max_pages < LONG_MIN ∨ LONG_MAX < max_pages then .error (.undefined, st0) else
  if ¬ (max_pages > 0) then .error (.fatal .page_count, st0) else
  let st : State := { counts := List.replicate max_pages.toNat 0, kreads := [] }
  if LONG_MAX < pagesize * max_pages then .error (.undefined, st) else
  match h.kpagecount with
  | none => .error (.fatal .kpagecount_open, st)
  | some kpagecount =>
    match analyze_all h max_pages pagesize kpagecount data pids fr st with
    | .error e => .error e
    | .ok (_, st) =>
      match saved_pages st.counts max_pages with
      | none => .error (.undefined, st)
      | some saved => .ok (st, saved)

/-! ## State-independent description of a scan

The functions below describe, without reference to the table, which pages a
scan visits, which frames they resolve to and whether a check fails on the
way.  They are used to state the properties of whole runs. -/

/-- The mapping count of frame `f` as `counts[pfn] = count` stores it: the
record at byte offset `8 * f` of `kpagecount` converted to `int` (`0` when the
record cannot be read). -/
def kcount (kpagecount : BinFile) (f : Nat) : Int :=
  match kpagecount (8 * f) with
  | some count => to_int ((count % 2 ^ 64 : Nat) : Int)
  | none => 0

/-- The frame a virtual page resolves to: the low 55 bits of its `pagemap`
record when the record can be read and has bit 63 set. -/
def frame_of (pagemap : BinFile) (page : Int) : Option Nat :=
  if 8 * page < 0 ∨ LONG_MAX < 8 * page then none else
  match pagemap (8 * page).toNat with
  | none => none
  | some w =>
    if (w % 2 ^ 64) >>> 63 = 1 then some ((w % 2 ^ 64) &&& ((1 <<< 55) - 1)) else none

/-- No check fails on the page: its `pagemap` record can be read and, when the
page is present, the frame number is below `max_pages` and the `kpagecount`
record of the frame can be read. -/
def page_ok (pagemap kpagecount : BinFile) (max_pages : Int) (page : Int) : Bool :=
  if 8 * page < 0 ∨ LONG_MAX < 8 * page then false else
  match pagemap (8 * page).toNat with
  | none => false
  | some w =>
    if (w % 2 ^ 64) >>> 63 = 1 then
      decide ((w % 2 ^ 64) &&& ((1 <<< 55) - 1) < to_ulong max_pages) &&
        (kpagecount (8 * ((w % 2 ^ 64) &&& ((1 <<< 55) - 1)))).isSome
    else true

/-- The values the loop variable `page` takes in `n` iterations from `page`. -/
def range_pages : Nat → Int → List Int
  | 0, _ => []
  | n + 1, page => page :: range_pages n (page + 1)

/-- A scan of one line without abort: the frames that the resident pages
scanned for the line resolve to, one entry for every page, and the variables
left behind; `none` when the loop body aborts on the line. -/
def line_scan (pagemap kpagecount : BinFile) (max_pages pagesize data : Int)
    (s : List Char) (fr : Frame) : Option (List Nat × Frame) :=
  match parse_line pagesize data s fr with
  | (_, .undefined) => none
  | (fr, .skip) => some ([], fr)
  | (fr, .scan begin n) =>
    if (range_pages n begin).all (page_ok pagemap kpagecount max_pages) then
      some ((range_pages n begin).filterMap (frame_of pagemap), fr)
    else none

/-- Scans of the elements of a list one after the other, each starting from the
variables the previous one left. -/
def seq_scan {α : Type} (scan1 : α → Frame → Option (List Nat × Frame)) :
    List α → Frame → Option (List Nat × Frame)
  | [], fr => some ([], fr)
  | x :: xs, fr =>
    match scan1 x fr with
    | none => none
    | some (fs, fr) =>
      match seq_scan scan1 xs fr with
      | none => none
      | some (gs, fr) => some (fs ++ gs, fr)

/-- A scan of process `pid` without abort: the frames that back the resident
pages of the regions `analyze_pid` selects, one entry for every such page, in
scan order. -/
def pid_scan (h : Host) (max_pages pagesize : Int) (kpagecount : BinFile) (data : Int)
    (pid : Int) (fr : Frame) : Option (List Nat × Frame) :=
  match (h.proc pid).maps, (h.proc pid).pagemap with
  | some lines, some pagemap =>
    seq_scan (line_scan pagemap kpagecount max_pages pagesize data) lines fr
  | _, _ => none

/-- A scan of the processes `pids` without abort. -/
def run_scan (h : Host) (max_pages pagesize : Int) (kpagecount : BinFile) (data : Int)
    (pids : List Int) (fr : Frame) : Option (List Nat × Frame) :=
  seq_scan (pid_scan h max_pages pagesize kpagecount data) pids fr

/-- The frames that the resident pages scanned in the run of `main` resolve to:
one entry for every (process, page) pair, in scan order (empty when the scan
aborts). -/
def touched_frames (h : Host) (pids : List Int) (data : Int) (fr : Frame) : List Nat :=
  match h.kpagecount with
  | some kpagecount =>
    match run_scan h (2 * h.sc_phys_pages) h.sc_pagesize kpagecount data pids fr with
    | some (fs, _) => fs
    | none => []
  | none => []

/-- The record of `kpagecount` for frame `f` as a 64-bit number (`0` when the
file or the record cannot be read). -/
def kernel_count (h : Host) (f : Nat) : Nat :=
  match h.kpagecount with
  | some kpagecount =>
    match kpagecount (8 * f) with
    | some count => count % 2 ^ 64
    | none => 0
  | none => 0

/-- Effect on the state of resolving a present page with frame `f` whose
`kpagecount` record can be read. -/
def record (kpagecount : BinFile) (st : State) (f : Nat) : State :=
  if st.counts[f]? = some 0 then
    { counts := st.counts.set f (kcount kpagecount f), kreads := st.kreads ++ [f] }
  else st

/-- Effect of resolving the frames `fs` one after the other. -/
def record_all (kpagecount : BinFile) (st : State) (fs : List Nat) : State :=
  fs.foldl (record kpagecount) st

/-- Every non-zero slot of the table holds the stored count of its frame. -/
def TableInv (kpagecount : BinFile) (st : State) : Prop :=
  ∀ i c, st.counts[i]? = some c → c ≠ 0 → c = kcount kpagecount i

/-- The sum the final loop computes in the spec's words: over the frames whose
count is greater than 0, of the count minus 1. -/
def spec_saved (counts : List Int) : Int :=
  ((counts.filter (fun c => decide (0 < c))).map (fun c => c - 1)).sum

/-- The sum over the frames whose count is not 0 of the count minus 1. -/
def nonzero_saved (counts : List Int) : Int :=
  ((counts.filter (fun c => decide (c ≠ 0))).map (fun c => c - 1)).sum

/-- A loop that runs `step` on the elements of a list and stops at the first
abort; `scan_range` is an instance. -/
def seq_loop {α : Type} (step : α → State → Result) : List α → State → Result
  | [], st => .ok st
  | x :: xs, st =>
    match step x st with
    | .error e => .error e
    | .ok st => seq_loop step xs st

/-- The table has `max_pages` slots and satisfies `TableInv`. -/
def Good (kpagecount : BinFile) (max_pages : Int) (st : State) : Prop :=
  st.counts.length = max_pages.toNat ∧ TableInv kpagecount st

/-- A loop that runs `step` on the elements of a list, handing the variables
left behind from one element to the next, and stops at the first abort;
`maps_loop` and `analyze_all` are instances. -/
def frame_loop {α : Type} (step : α → Frame → State → FrameResult) :
    List α → Frame → State → FrameResult
  | [], fr, st => .ok (fr, st)
  | x :: xs, fr, st =>
    match step x fr st with
    | .error e => .error e
    | .ok (fr, st) => frame_loop step xs fr st

/-- No frame with a non-zero stored count has been read more than once, and a
frame that has been read has its stored count in the table. -/
def ReadInv (kpagecount : BinFile) (st : State) : Prop :=
  ∀ F, kcount kpagecount F ≠ 0 →
    st.kreads.count F = 0 ∨
      (st.kreads.count F = 1 ∧ st.counts[F]? = some (kcount kpagecount F))

/-- The state a piece of the program ends in: the new state, or the state at
the abort. -/
def end_state {α : Type} (proj : α → State) : Except (Abort × State) α → State
  | .ok a => proj a
  | .error (_, st) => st

/-! ## Concrete inputs -/

/-- A `maps` line for a 10-page `r-xp` mapping of a shared object. -/
def demo_line : List Char :=
  "7f0000000000-7f000000a000 r-xp 00000000 08:03 3411032    /usr/lib/libdemo.so\n".toList

/-- The line `demo_line` with the file offset `0001a000`. -/
def hex_offset_line : List Char :=
  "7f0000000000-7f000000a000 r-xp 0001a000 08:03 3411032    /usr/lib/libdemo.so\n".toList

/-- The line `demo_line` cut off before the inode. -/
def cut_line : List Char :=
  "7f0000000000-7f000000a000 r-xp 00000000 08:03\n".toList

/-- A `maps` line for the heap: an anonymous mapping, inode 0. -/
def heap_line : List Char :=
  "01000000-01021000 rw-p 00000000 00:00 0    [heap]\n".toList

/-- A `pagemap` in which the 10 pages of `demo_line` are present and backed by
the frames `first` to `first + 9`; every other page is absent. -/
def demo_pagemap (first : Nat) : BinFile := fun off =>
  if 8 * 0x7f0000000 ≤ off ∧ off < 8 * (0x7f0000000 + 10) then
    some (2 ^ 63 + first + (off / 8 - 0x7f0000000))
  else some 0

/-- A host with page size 4096 and 32 table slots; every frame has mapping
count 2.  The processes 1 and 2 both map the frames 5 to 14 from the same shared
object, process 3 maps the frames 10 to 19.  Process 4 maps the frames 20 to 29
from the shared object, at file offset `0001a000`; process 5 is process 4 with a
heap in front; process 6 has a heap only. -/
def demo_host : Host :=
  { uid := 0
    sc_pagesize := 4096
    sc_phys_pages := 16
    proc := fun pid =>
      if pid = 1 ∨ pid = 2 then { maps := some [demo_line], pagemap := some (demo_pagemap 5) }
      else if pid = 3 then { maps := some [demo_line], pagemap := some (demo_pagemap 10) }
      else if pid = 4 then
        { maps := some [hex_offset_line], pagemap := some (demo_pagemap 20) }
      else if pid = 5 then
        { maps := some [heap_line, hex_offset_line], pagemap := some (demo_pagemap 20) }
      else if pid = 6 then { maps := some [heap_line], pagemap := some (demo_pagemap 0) }
      else { maps := none, pagemap := none }
    kpagecount := some (fun _ => some 2) }

/-- A host with 8 table slots and one process, 1, whose two mapped pages are
both backed by frame 3; the mapping count recorded for every frame is 0. -/
def zero_host : Host :=
  { uid := 0
    sc_pagesize := 4096
    sc_phys_pages := 4
    proc := fun _ =>
      { maps := some ["1000-3000 r-xp 00000000 08:03 77 /lib/libz.so\n".toList]
        pagemap := some (fun _ => some (2 ^ 63 + 3)) }
    kpagecount := some (fun _ => some 0) }

/-- Variables about whose contents nothing is known. -/
def fresh_frame : Frame := { vars := fresh_vars, line := [] }

/-- Variables in a stack that holds zeros: the numbers are 0 and the buffer
holds `n` NUL characters. -/
def zero_frame (n : Nat) : Frame :=
  { vars := { begin := some 0, end_ := some 0, perms := [], off := some 0, major := some 0,
              minor := some 0, inode := some 0, prefix_len := some 0 },
    line := List.replicate n NUL }

/-! ## Lemmas on the string functions -/

theorem strstr_isSome_iff (hay needle : List Char) :
    (strstr hay needle).isSome = true ↔ needle <:+: hay := by
  induction hay with
  | nil =>
    by_cases h : needle = []
    · simp [strstr, h]
    · simp [strstr, h]
  | cons c cs ih =>
    by_cases hp : needle.isPrefixOf (c :: cs) = true
    · have hp' : needle <+: c :: cs := List.isPrefixOf_iff_prefix.mp hp
      simp [strstr, hp, hp'.isInfix]
    · have hp' : ¬ needle <+: c :: cs := fun h => hp (List.isPrefixOf_iff_prefix.mpr h)
      simp only [strstr, hp, Bool.false_eq_true, if_false, Option.isSome_map']
      rw [ih, List.infix_cons_iff]
      simp [hp']

/-! ## Claim C1 -/

/-- The filter of lines 87-93 in terms of the parsed fields. -/
theorem region_selected_iff (data : Int) (perms : List Char) (inode : Int)
    (soname : List Char) :
    region_selected data perms inode soname = true ↔
      (['.', 's', 'o'] <:+: soname ∧ inode ≠ 0 ∧
        (perms = ['r', '-', 'x', 'p'] ∨ (data ≠ 0 ∧ perms = ['r', '-', '-', 'p']))) := by
  rw [← strstr_isSome_iff]
  have e1 : strcmp_eq ['r', '-', 'x', 'p'] perms = decide (perms = ['r', '-', 'x', 'p']) := by
    unfold strcmp_eq
    exact decide_eq_decide.mpr eq_comm
  have e2 : strcmp_eq ['r', '-', '-', 'p'] perms = decide (perms = ['r', '-', '-', 'p']) := by
    unfold strcmp_eq
    exact decide_eq_decide.mpr eq_comm
  unfold region_selected
  rw [e1, e2]
  by_cases hd : data = 0 <;> by_cases hi : inode = 0 <;>
    by_cases h1 : perms = ['r', '-', 'x', 'p'] <;>
    by_cases h2 : perms = ['r', '-', '-', 'p'] <;>
    cases hso : strstr soname ['.', 's', 'o'] <;>
    simp [hd, hi, h1, h2]

/-- C1: for every parsed permission string, inode and backing path and every
value of the data flag, `analyze_pid` goes on to scan the region iff the path
contains ".so", the inode is non-zero and the permission string is exactly
"r-xp" or, only when the data flag is set, exactly "r--p"; in particular
"rw-p" is never selected and a "r-xp" region with inode 0 is not selected. -/
theorem C1_region_selected_iff (data : Int) (perms : List Char) (inode : Int)
    (soname : List Char) :
    (region_selected data perms inode soname = true ↔
      (['.', 's', 'o'] <:+: soname ∧ inode ≠ 0 ∧
        (perms = ['r', '-', 'x', 'p'] ∨ (data ≠ 0 ∧ perms = ['r', '-', '-', 'p']))))
    ∧ region_selected data ['r', 'w', '-', 'p'] inode soname = false
    ∧ region_selected data ['r', '-', 'x', 'p'] 0 soname = false := by
  refine ⟨region_selected_iff data perms inode soname, ?_, ?_⟩
  · have h := region_selected_iff data ['r', 'w', '-', 'p'] inode soname
    cases hr : region_selected data ['r', 'w', '-', 'p'] inode soname with
    | false => rfl
    | true =>
      have h2 := h.mp hr
      rcases h2.2.2 with h3 | ⟨_, h3⟩ <;> simp at h3
  · have h := region_selected_iff data ['r', '-', 'x', 'p'] 0 soname
    cases hr : region_selected data ['r', '-', 'x', 'p'] 0 soname with
    | false => rfl
    | true => exact absurd rfl (h.mp hr).2.1

/-! ## Lemmas on machine integers -/

theorem to_ulong_of_pos (n : Int) (h : 0 < n) (h2 : n ≤ LONG_MAX) : to_ulong n = n.toNat := by
  unfold to_ulong LONG_MAX at *
  omega

theorem pfn_mask (x : Nat) : x &&& ((1 <<< 55) - 1) = x % 2 ^ 55 := by
  have : (1 <<< 55) - 1 = 2 ^ 55 - 1 := by decide
  rw [this, Nat.and_pow_two_sub_one_eq_mod]

theorem present_iff (w : Nat) : ((w % 2 ^ 64) >>> 63 = 1) ↔ w.testBit 63 = true := by
  rw [Nat.shiftRight_eq_div_pow, Nat.testBit_to_div_mod]
  simp only [decide_eq_true_eq]
  omega

theorem koff_eq (pfn : Nat) (h : pfn < 2 ^ 55) :
    to_long (((8 * pfn) % 2 ^ 64 : Nat) : Int) = ((8 * pfn : Nat) : Int) := by
  unfold to_long
  omega

theorem to_int_mod (r : Nat) : to_int ((r % 2 ^ 64 : Nat) : Int) = to_int r := by
  unfold to_int
  omega

theorem to_int_small (r : Nat) (h : r < 2 ^ 31) : to_int r = r := by
  unfold to_int
  omega

/-! ## One page -/

/-- `resolve_page` after the `pagemap` record `w` of the page has been read. -/
theorem resolve_page_read (pagemap kpagecount : BinFile) (max_pages page : Int) (st : State)
    (w : Nat) (hpage : 0 ≤ page ∧ 8 * page ≤ LONG_MAX)
    (hrec : pagemap (8 * page).toNat = some w) :
    resolve_page pagemap kpagecount max_pages page st =
      if (w % 2 ^ 64) >>> 63 ≠ 1 then .ok st else
      if ¬ ((w % 2 ^ 64) &&& ((1 <<< 55) - 1) < to_ulong max_pages) then
        .error (.fatal .pfn_too_large, st) else
      match st.counts[(w % 2 ^ 64) &&& ((1 <<< 55) - 1)]? with
      | none => .error (.undefined, st)
      | some c =>
        if c ≠ 0 then .ok st else
        match kpagecount (8 * ((w % 2 ^ 64) &&& ((1 <<< 55) - 1))) with
        | none => .error (.fatal .kpagecount_fread,
            { st with kreads := st.kreads ++ [(w % 2 ^ 64) &&& ((1 <<< 55) - 1)] })
        | some count => .ok
            { counts := st.counts.set ((w % 2 ^ 64) &&& ((1 <<< 55) - 1))
                (to_int ((count % 2 ^ 64 : Nat) : Int)),
              kreads := st.kreads ++ [(w % 2 ^ 64) &&& ((1 <<< 55) - 1)] } := by
  have h1 : ¬ (8 * page < LONG_MIN ∨ LONG_MAX < 8 * page) := by
    unfold LONG_MIN; omega
  have h2 : ¬ (8 * page < 0) := by omega
  have hlt : (w % 2 ^ 64) &&& ((1 <<< 55) - 1) < 2 ^ 55 := by
    rw [pfn_mask]; exact Nat.mod_lt _ (by positivity)
  have hk := koff_eq _ hlt
  have hk0 : ¬ (to_long (((8 * ((w % 2 ^ 64) &&& ((1 <<< 55) - 1))) % 2 ^ 64 : Nat) : Int) < 0) := by
    rw [hk]; omega
  unfold resolve_page
  dsimp only
  rw [if_neg h1, if_neg h2, hrec]
  dsimp only
  split
  · rfl
  · split
    · rfl
    · split
      · rfl
      · split
        · rfl
        · rw [hk, Int.toNat_ofNat]

theorem record_length (kp : BinFile) (st : State) (f : Nat) :
    (record kp st f).counts.length = st.counts.length := by
  unfold record
  split <;> simp

theorem record_inv (kp : BinFile) (st : State) (f : Nat) (h : TableInv kp st) :
    TableInv kp (record kp st f) := by
  unfold record
  split
  · intro i c hc hne
    simp only [List.getElem?_set] at hc
    by_cases hfi : f = i
    · subst hfi
      rw [if_pos rfl] at hc
      split at hc
      · simp only [Option.some.injEq] at hc
        exact hc.symm
      · simp at hc
    · rw [if_neg hfi] at hc
      exact h i c hc hne
  · exact h

theorem record_all_length (kp : BinFile) (fs : List Nat) (st : State) :
    (record_all kp st fs).counts.length = st.counts.length := by
  induction fs generalizing st with
  | nil => rfl
  | cons f fs ih =>
    show (record_all kp (record kp st f) fs).counts.length = _
    rw [ih, record_length]

theorem record_all_inv (kp : BinFile) (fs : List Nat) (st : State) (h : TableInv kp st) :
    TableInv kp (record_all kp st fs) := by
  induction fs generalizing st with
  | nil => exact h
  | cons f fs ih => exact ih _ (record_inv kp st f h)

theorem record_all_append (kp : BinFile) (st : State) (fs gs : List Nat) :
    record_all kp st (fs ++ gs) = record_all kp (record_all kp st fs) gs := by
  unfold record_all
  rw [List.foldl_append]

/-- Under the table invariant the outcome of `resolve_page` is described by
`page_ok` and `frame_of`. -/
theorem resolve_page_spec (pm kp : BinFile) (mp page : Int) (st : State)
    (hmp : 0 < mp ∧ mp ≤ LONG_MAX) (hlen : st.counts.length = mp.toNat)
    (hinv : TableInv kp st) :
    (resolve_page pm kp mp page st).toOption =
      if page_ok pm kp mp page = true then
        some (record_all kp st (frame_of pm page).toList)
      else none := by
  by_cases h1 : 8 * page < LONG_MIN ∨ LONG_MAX < 8 * page
  · have h1' : 8 * page < 0 ∨ LONG_MAX < 8 * page := by
      unfold LONG_MIN at h1; omega
    unfold resolve_page page_ok
    dsimp only
    rw [if_pos h1, if_pos h1']
    rfl
  by_cases h2 : 8 * page < 0
  · unfold resolve_page page_ok
    dsimp only
    rw [if_neg h1, if_pos h2, if_pos (Or.inl h2)]
    rfl
  have h1' : ¬ (8 * page < 0 ∨ LONG_MAX < 8 * page) := by
    unfold LONG_MIN at h1; omega
  cases hrec : pm (8 * page).toNat with
  | none =>
    unfold resolve_page page_ok
    dsimp only
    rw [if_neg h1, if_neg h2, if_neg h1', hrec]
    rfl
  | some w =>
    rw [resolve_page_read pm kp mp page st w ⟨by omega, by omega⟩ hrec]
    unfold page_ok frame_of
    rw [if_neg h1', if_neg h1', hrec]
    dsimp only
    by_cases hp : (w % 2 ^ 64) >>> 63 = 1
    · rw [if_neg (not_not.mpr hp), if_pos hp, if_pos hp]
      rw [to_ulong_of_pos mp hmp.1 hmp.2]
      by_cases hlt : (w % 2 ^ 64) &&& ((1 <<< 55) - 1) < mp.toNat
      · rw [if_neg (not_not.mpr hlt)]
        have hin : (w % 2 ^ 64) &&& ((1 <<< 55) - 1) < st.counts.length := by
          rw [hlen]; exact hlt
        rw [List.getElem?_eq_getElem hin]
        dsimp only
        simp only [hlt, decide_True, Bool.true_and, Option.toList, record_all, List.foldl]
        by_cases hc : st.counts[(w % 2 ^ 64) &&& ((1 <<< 55) - 1)] = 0
        · rw [if_neg (not_not.mpr hc)]
          have hrecd : record kp st ((w % 2 ^ 64) &&& ((1 <<< 55) - 1)) =
              { counts := st.counts.set ((w % 2 ^ 64) &&& ((1 <<< 55) - 1))
                  (kcount kp ((w % 2 ^ 64) &&& ((1 <<< 55) - 1))),
                kreads := st.kreads ++ [(w % 2 ^ 64) &&& ((1 <<< 55) - 1)] } := by
            unfold record
            rw [List.getElem?_eq_getElem hin, hc, if_pos rfl]
          rw [hrecd]
          unfold kcount
          cases hk : kp (8 * ((w % 2 ^ 64) &&& ((1 <<< 55) - 1))) with
          | none => rfl
          | some count => rfl
        · rw [if_pos hc]
          have hrecd : record kp st ((w % 2 ^ 64) &&& ((1 <<< 55) - 1)) = st := by
            unfold record
            rw [List.getElem?_eq_getElem hin, if_neg]
            intro h
            exact hc (Option.some.inj h)
          rw [hrecd]
          have hk := hinv _ _ (List.getElem?_eq_getElem hin) hc
          cases hkp : kp (8 * ((w % 2 ^ 64) &&& ((1 <<< 55) - 1))) with
          | none =>
            exfalso
            unfold kcount at hk
            rw [hkp] at hk
            exact hc hk
          | some count => rfl
      · rw [if_pos hlt]
        simp only [hlt, decide_False, Bool.false_and]
        rfl
    · rw [if_pos hp, if_neg hp, if_neg hp]
      rfl

/-! ## Loops -/

theorem good_record_all (kp : BinFile) (mp : Int) (st : State) (fs : List Nat)
    (h : Good kp mp st) : Good kp mp (record_all kp st fs) :=
  ⟨by rw [record_all_length]; exact h.1, record_all_inv kp fs st h.2⟩

theorem seq_loop_spec {α : Type} (kp : BinFile) (mp : Int) (step : α → State → Result)
    (ok : α → Bool) (fr : α → List Nat)
    (hstep : ∀ x st, Good kp mp st →
      (step x st).toOption = if ok x = true then some (record_all kp st (fr x)) else none)
    (xs : List α) (st : State) (hst : Good kp mp st) :
    (seq_loop step xs st).toOption =
      if xs.all ok = true then some (record_all kp st (xs.flatMap fr)) else none := by
  induction xs generalizing st with
  | nil => rfl
  | cons x xs ih =>
    have hx := hstep x st hst
    unfold seq_loop
    cases hr : step x st with
    | error e =>
      rw [hr] at hx
      have hok : ok x = false := by
        cases hokx : ok x with
        | false => rfl
        | true => rw [hokx] at hx; simp [Except.toOption] at hx
      simp [hok, Except.toOption]
    | ok st1 =>
      rw [hr] at hx
      have hok : ok x = true := by
        cases hokx : ok x with
        | true => rfl
        | false => rw [hokx] at hx; simp [Except.toOption] at hx
      rw [hok, if_pos rfl] at hx
      have hst1 : st1 = record_all kp st (fr x) := by
        simpa [Except.toOption] using hx
      dsimp only
      rw [ih st1 (hst1 ▸ good_record_all kp mp st (fr x) hst)]
      simp only [List.all_cons, hok, Bool.true_and, List.flatMap_cons, record_all_append, hst1]

theorem scan_range_eq (pm kp : BinFile) (mp : Int) (n : Nat) (page : Int) (st : State) :
    scan_range pm kp mp n page st = seq_loop (resolve_page pm kp mp) (range_pages n page) st := by
  induction n generalizing page st with
  | zero => rfl
  | succ n ih =>
    unfold scan_range range_pages seq_loop
    cases resolve_page pm kp mp page st with
    | error e => rfl
    | ok st1 => exact ih _ _

theorem toOption_none {ε α : Type} (r : Except ε α) (h : r.toOption = none) :
    ∃ e, r = .error e := by
  cases r with
  | error e => exact ⟨e, rfl⟩
  | ok a => exact Option.noConfusion h

theorem toOption_some {ε α : Type} (r : Except ε α) (a : α) (h : r.toOption = some a) :
    r = .ok a := by
  cases r with
  | error e => exact Option.noConfusion h
  | ok b => exact congrArg Except.ok (Option.some.inj h)

/-- A loop over a list that hands the variables on is described by `seq_scan`
when every step is described by its scan. -/
theorem frame_loop_spec {α : Type} (kp : BinFile) (mp : Int)
    (step : α → Frame → State → FrameResult)
    (scan1 : α → Frame → Option (List Nat × Frame))
    (hstep : ∀ x fr st, Good kp mp st →
      (step x fr st).toOption = (scan1 x fr).map (fun r => (r.2, record_all kp st r.1)))
    (xs : List α) (fr : Frame) (st : State) (hst : Good kp mp st) :
    (frame_loop step xs fr st).toOption =
      (seq_scan scan1 xs fr).map (fun r => (r.2, record_all kp st r.1)) := by
  induction xs generalizing fr st with
  | nil => rfl
  | cons x xs ih =>
    have hx := hstep x fr st hst
    unfold frame_loop seq_scan
    cases hr : step x fr st with
    | error e =>
      rw [hr] at hx
      cases hs : scan1 x fr with
      | none => rfl
      | some r => rw [hs] at hx; exact Option.noConfusion hx
    | ok r1 =>
      obtain ⟨fr1, st1⟩ := r1
      rw [hr] at hx
      cases hs : scan1 x fr with
      | none => rw [hs] at hx; exact Option.noConfusion hx
      | some r =>
        obtain ⟨fs, fr1'⟩ := r
        rw [hs] at hx
        have hpair : (fr1, st1) = (fr1', record_all kp st fs) := Option.some.inj hx
        have hfr : fr1 = fr1' := congrArg Prod.fst hpair
        have hst1 : st1 = record_all kp st fs := congrArg Prod.snd hpair
        subst hfr
        dsimp only
        rw [ih fr1 st1 (hst1 ▸ good_record_all kp mp st fs hst)]
        cases seq_scan scan1 xs fr1 with
        | none => rfl
        | some r2 =>
          obtain ⟨gs, fr2⟩ := r2
          simp only [Option.map_some', hst1, record_all_append]

theorem maps_loop_eq (pm kp : BinFile) (mp ps data : Int) (lines : List (List Char))
    (fr : Frame) (st : State) :
    maps_loop pm kp mp ps data lines fr st =
      frame_loop (analyze_line pm kp mp ps data) lines fr st := by
  induction lines generalizing fr st with
  | nil => rfl
  | cons l ls ih =>
    unfold maps_loop frame_loop
    cases analyze_line pm kp mp ps data l fr st with
    | error e => rfl
    | ok r => exact ih _ _

theorem analyze_all_eq (h : Host) (mp ps : Int) (kp : BinFile) (data : Int) (pids : List Int)
    (fr : Frame) (st : State) :
    analyze_all h mp ps kp data pids fr st =
      frame_loop (fun pid fr st => analyze_pid h pid st mp ps kp data fr) pids fr st := by
  induction pids generalizing fr st with
  | nil => rfl
  | cons p pids ih =>
    unfold analyze_all frame_loop
    cases analyze_pid h p st mp ps kp data fr with
    | error e => rfl
    | ok r => exact ih _ _

theorem flatMap_toList_eq_filterMap {α β : Type} (f : α → Option β) (xs : List α) :
    xs.flatMap (fun x => (f x).toList) = xs.filterMap f := by
  induction xs with
  | nil => rfl
  | cons x xs ih =>
    rw [List.flatMap_cons, ih, List.filterMap_cons]
    cases f x <;> rfl

theorem pages_spec (pm kp : BinFile) (mp : Int) (pages : List Int) (st : State)
    (hmp : 0 < mp ∧ mp ≤ LONG_MAX) (hst : Good kp mp st) :
    (seq_loop (resolve_page pm kp mp) pages st).toOption =
      if pages.all (page_ok pm kp mp) = true then
        some (record_all kp st (pages.filterMap (frame_of pm)))
      else none := by
  rw [← flatMap_toList_eq_filterMap]
  exact seq_loop_spec kp mp _ _ _
    (fun x s hs => resolve_page_spec pm kp mp x s hmp hs.1 hs.2) pages st hst

theorem analyze_line_spec (pm kp : BinFile) (mp ps data : Int) (s : List Char)
    (fr : Frame) (st : State) (hmp : 0 < mp ∧ mp ≤ LONG_MAX) (hst : Good kp mp st) :
    (analyze_line pm kp mp ps data s fr st).toOption =
      (line_scan pm kp mp ps data s fr).map (fun r => (r.2, record_all kp st r.1)) := by
  unfold analyze_line line_scan
  cases hp : parse_line ps data s fr with
  | mk fr1 act =>
    cases act with
    | undefined => rfl
    | skip => rfl
    | scan b n =>
      dsimp only
      have hpages := pages_spec pm kp mp (range_pages n b) st hmp hst
      rw [← scan_range_eq] at hpages
      cases hr : scan_range pm kp mp n b st with
      | error e =>
        rw [hr] at hpages
        by_cases hall : (range_pages n b).all (page_ok pm kp mp) = true
        · rw [if_pos hall] at hpages; exact Option.noConfusion hpages
        · rw [if_neg hall]; rfl
      | ok st1 =>
        rw [hr] at hpages
        by_cases hall : (range_pages n b).all (page_ok pm kp mp) = true
        · rw [if_pos hall] at hpages
          have hst1 : st1 = record_all kp st ((range_pages n b).filterMap (frame_of pm)) :=
            Option.some.inj hpages
          rw [if_pos hall, hst1]
          rfl
        · rw [if_neg hall] at hpages; exact Option.noConfusion hpages

theorem analyze_pid_spec (h : Host) (pid : Int) (st : State) (mp ps : Int) (kp : BinFile)
    (data : Int) (fr : Frame) (hmp : 0 < mp ∧ mp ≤ LONG_MAX) (hst : Good kp mp st) :
    (analyze_pid h pid st mp ps kp data fr).toOption =
      (pid_scan h mp ps kp data pid fr).map (fun r => (r.2, record_all kp st r.1)) := by
  unfold analyze_pid pid_scan
  cases (h.proc pid).maps with
  | none => rfl
  | some lines =>
    cases (h.proc pid).pagemap with
    | none => rfl
    | some pm =>
      dsimp only
      rw [maps_loop_eq]
      exact frame_loop_spec kp mp _ _
        (fun x f s hs => analyze_line_spec pm kp mp ps data x f s hmp hs) lines fr st hst

theorem analyze_all_spec (h : Host) (mp ps : Int) (kp : BinFile) (data : Int)
    (pids : List Int) (fr : Frame) (st : State) (hmp : 0 < mp ∧ mp ≤ LONG_MAX)
    (hst : Good kp mp st) :
    (analyze_all h mp ps kp data pids fr st).toOption =
      (run_scan h mp ps kp data pids fr).map (fun r => (r.2, record_all kp st r.1)) := by
  rw [analyze_all_eq]
  exact frame_loop_spec kp mp _ _
    (fun x f s hs => analyze_pid_spec h x s mp ps kp data f hmp hs) pids fr st hst

/-! ## The effect of `record_all` on the table and on the trace -/

theorem record_counts (kp : BinFile) (st : State) (f i : Nat) :
    (record kp st f).counts[i]? =
      if f = i ∧ st.counts[i]? = some 0 then some (kcount kp i) else st.counts[i]? := by
  unfold record
  by_cases hf : f = i
  · subst hf
    by_cases h0 : st.counts[f]? = some 0
    · rw [if_pos h0, if_pos ⟨rfl, h0⟩]
      have hlt : f < st.counts.length := by
        by_contra hge
        rw [List.getElem?_eq_none (by omega)] at h0
        exact Option.noConfusion h0
      simp [List.getElem?_set, hlt]
    · have h1 : ¬ (f = f ∧ st.counts[f]? = some 0) := fun h => h0 h.2
      rw [if_neg h0, if_neg h1]
  · have h1 : ¬ (f = i ∧ st.counts[i]? = some 0) := fun h => hf h.1
    rw [if_neg h1]
    split
    · show (st.counts.set f (kcount kp f))[i]? = st.counts[i]?
      rw [List.getElem?_set_ne hf]
    · rfl

theorem record_all_counts (kp : BinFile) (fs : List Nat) (st : State) (i : Nat) :
    (record_all kp st fs).counts[i]? =
      if i ∈ fs ∧ st.counts[i]? = some 0 then some (kcount kp i) else st.counts[i]? := by
  induction fs generalizing st with
  | nil => simp [record_all]
  | cons f fs ih =>
    have hstep : record_all kp st (f :: fs) = record_all kp (record kp st f) fs := rfl
    rw [hstep, ih, record_counts]
    by_cases hf : f = i
    · subst hf
      by_cases h0 : st.counts[f]? = some 0
      · simp only [h0, and_self, if_true, List.mem_cons, true_or, and_true]
        split <;> rfl
      · have h1 : ¬ (f = f ∧ st.counts[f]? = some 0) := fun h => h0 h.2
        simp only [h1, if_false, h0, and_false]
    · have h1 : ¬ (f = i ∧ st.counts[i]? = some 0) := fun h => hf h.1
      have h2 : (i ∈ f :: fs) ↔ i ∈ fs := by
        simp [List.mem_cons, Ne.symm hf]
      simp only [h1, if_false, h2]

theorem record_kreads_ne (kp : BinFile) (st : State) (f F : Nat) (h : f ≠ F) :
    (record kp st f).kreads.count F = st.kreads.count F := by
  unfold record
  split
  · simp [List.count_append, List.count_cons, h]
  · rfl

/-- A frame whose stored count is not 0 is read at most once more. -/
theorem record_all_kreads_nonzero (kp : BinFile) (F : Nat) (hF : kcount kp F ≠ 0)
    (fs : List Nat) (st : State) :
    (record_all kp st fs).kreads.count F =
      st.kreads.count F + if F ∈ fs ∧ st.counts[F]? = some 0 then 1 else 0 := by
  induction fs generalizing st with
  | nil => simp [record_all]
  | cons f fs ih =>
    have hstep : record_all kp st (f :: fs) = record_all kp (record kp st f) fs := rfl
    rw [hstep, ih, record_counts]
    by_cases hf : f = F
    · subst hf
      by_cases h0 : st.counts[f]? = some 0
      · have hr : (record kp st f).kreads.count f = st.kreads.count f + 1 := by
          unfold record
          rw [if_pos h0]
          simp [List.count_append]
        have hne : ¬ (some (kcount kp f) = some (0 : Int)) := fun h => hF (Option.some.inj h)
        simp only [h0, and_self, if_true, hne, and_false, if_false, hr, List.mem_cons,
          true_or, add_zero]
      · have hr : record kp st f = st := by
          unfold record
          rw [if_neg h0]
        simp only [hr, h0, and_false, if_false]
    · have h1 : ¬ (f = F ∧ st.counts[F]? = some 0) := fun h => hf h.1
      have h2 : (F ∈ f :: fs) ↔ F ∈ fs := by
        simp [List.mem_cons, Ne.symm hf]
      simp only [h1, if_false, h2, record_kreads_ne kp st f F hf]

/-- A frame whose stored count is 0 is read again at every visit. -/
theorem record_all_kreads_zero (kp : BinFile) (F : Nat) (hF : kcount kp F = 0)
    (fs : List Nat) (st : State) (h0 : st.counts[F]? = some 0) :
    (record_all kp st fs).kreads.count F = st.kreads.count F + fs.count F := by
  induction fs generalizing st with
  | nil => simp [record_all]
  | cons f fs ih =>
    have hstep : record_all kp st (f :: fs) = record_all kp (record kp st f) fs := rfl
    have h0' : (record kp st f).counts[F]? = some 0 := by
      rw [record_counts]
      split
      · rw [hF]
      · exact h0
    rw [hstep, ih _ h0']
    by_cases hf : f = F
    · subst hf
      have hr : (record kp st f).kreads.count f = st.kreads.count f + 1 := by
        unfold record
        rw [if_pos h0]
        simp [List.count_append]
      rw [hr, List.count_cons_self]
      omega
    · rw [record_kreads_ne kp st f F hf, List.count_cons_of_ne (Ne.symm hf)]

/-! ## Frames of a scan without abort are inside the table -/

theorem page_ok_frame (pm kp : BinFile) (mp page : Int) (f : Nat)
    (hmp : 0 < mp ∧ mp ≤ LONG_MAX)
    (hok : page_ok pm kp mp page = true) (hf : frame_of pm page = some f) :
    f < mp.toNat ∧ (kp (8 * f)).isSome = true := by
  unfold page_ok at hok
  unfold frame_of at hf
  split at hf
  · exact Option.noConfusion hf
  · rename_i hoff
    rw [if_neg hoff] at hok
    cases hrec : pm (8 * page).toNat with
    | none => rw [hrec] at hf; exact Option.noConfusion hf
    | some w =>
      rw [hrec] at hf hok
      dsimp only at hf hok
      split at hf
      · rename_i hp
        rw [if_pos hp] at hok
        have hfe := Option.some.inj hf
        rw [to_ulong_of_pos mp hmp.1 hmp.2, hfe] at hok
        rw [Bool.and_eq_true, decide_eq_true_eq] at hok
        exact hok
      · exact Option.noConfusion hf

theorem seq_scan_frames {α : Type} (P : Nat → Prop)
    (scan1 : α → Frame → Option (List Nat × Frame))
    (h1 : ∀ x fr fs fr1, scan1 x fr = some (fs, fr1) → ∀ f ∈ fs, P f)
    (xs : List α) (fr : Frame) (fs : List Nat) (fr1 : Frame)
    (hs : seq_scan scan1 xs fr = some (fs, fr1)) : ∀ f ∈ fs, P f := by
  induction xs generalizing fr fs fr1 with
  | nil =>
    have hpair : (([] : List Nat), fr) = (fs, fr1) := Option.some.inj hs
    have hfs : fs = [] := (congrArg Prod.fst hpair).symm
    intro f hf
    rw [hfs] at hf
    exact absurd hf (List.not_mem_nil f)
  | cons x xs ih =>
    unfold seq_scan at hs
    cases hx : scan1 x fr with
    | none => rw [hx] at hs; exact Option.noConfusion hs
    | some r =>
      obtain ⟨gs, fr2⟩ := r
      rw [hx] at hs
      dsimp only at hs
      cases hr : seq_scan scan1 xs fr2 with
      | none => rw [hr] at hs; exact Option.noConfusion hs
      | some r2 =>
        obtain ⟨ks, fr3⟩ := r2
        rw [hr] at hs
        have hpair : (gs ++ ks, fr3) = (fs, fr1) := Option.some.inj hs
        have hfs : fs = gs ++ ks := (congrArg Prod.fst hpair).symm
        intro f hf
        rw [hfs] at hf
        rcases List.mem_append.mp hf with hg | hk
        · exact h1 x fr gs fr2 hx f hg
        · exact ih fr2 ks fr3 hr f hk

theorem line_scan_frames (pm kp : BinFile) (mp ps data : Int) (hmp : 0 < mp ∧ mp ≤ LONG_MAX)
    (s : List Char) (fr : Frame) (fs : List Nat) (fr1 : Frame)
    (hs : line_scan pm kp mp ps data s fr = some (fs, fr1)) :
    ∀ f ∈ fs, f < mp.toNat ∧ (kp (8 * f)).isSome = true := by
  unfold line_scan at hs
  cases hp : parse_line ps data s fr with
  | mk fr2 act =>
    rw [hp] at hs
    cases act with
    | undefined => exact Option.noConfusion hs
    | skip =>
      have hpair : (([] : List Nat), fr2) = (fs, fr1) := Option.some.inj hs
      have hfs : fs = [] := (congrArg Prod.fst hpair).symm
      intro f hf
      rw [hfs] at hf
      exact absurd hf (List.not_mem_nil f)
    | scan b n =>
      dsimp only at hs
      by_cases hall : (range_pages n b).all (page_ok pm kp mp) = true
      · rw [if_pos hall] at hs
        have hpair : ((range_pages n b).filterMap (frame_of pm), fr2) = (fs, fr1) :=
          Option.some.inj hs
        have hfs : fs = (range_pages n b).filterMap (frame_of pm) :=
          (congrArg Prod.fst hpair).symm
        intro f hf
        rw [hfs] at hf
        obtain ⟨page, hpage, hfp⟩ := List.mem_filterMap.mp hf
        exact page_ok_frame pm kp mp page f hmp (List.all_eq_true.mp hall page hpage) hfp
      · rw [if_neg hall] at hs
        exact Option.noConfusion hs

theorem pid_scan_frames (h : Host) (mp ps : Int) (kp : BinFile) (data : Int)
    (hmp : 0 < mp ∧ mp ≤ LONG_MAX) (pid : Int) (fr : Frame) (fs : List Nat) (fr1 : Frame)
    (hs : pid_scan h mp ps kp data pid fr = some (fs, fr1)) :
    ∀ f ∈ fs, f < mp.toNat ∧ (kp (8 * f)).isSome = true := by
  unfold pid_scan at hs
  cases hm : (h.proc pid).maps with
  | none => rw [hm] at hs; exact Option.noConfusion hs
  | some lines =>
    cases hp : (h.proc pid).pagemap with
    | none => rw [hm, hp] at hs; exact Option.noConfusion hs
    | some pm =>
      rw [hm, hp] at hs
      exact seq_scan_frames _ _ (line_scan_frames pm kp mp ps data hmp) lines fr fs fr1 hs

theorem run_scan_frames (h : Host) (mp ps : Int) (kp : BinFile) (data : Int)
    (hmp : 0 < mp ∧ mp ≤ LONG_MAX) (pids : List Int) (fr : Frame) (fs : List Nat)
    (fr1 : Frame) (hs : run_scan h mp ps kp data pids fr = some (fs, fr1)) :
    ∀ f ∈ fs, f < mp.toNat ∧ (kp (8 * f)).isSome = true :=
  seq_scan_frames _ _ (pid_scan_frames h mp ps kp data hmp) pids fr fs fr1 hs

/-! ## `main` -/

/-- The table `main` allocates. -/
theorem good_zero (kp : BinFile) (mp : Int) :
    Good kp mp { counts := List.replicate mp.toNat 0, kreads := [] } := by
  refine ⟨by simp, ?_⟩
  intro i c hc hne
  exfalso
  apply hne
  rw [List.getElem?_replicate] at hc
  split at hc
  · exact (Option.some.inj hc).symm
  · exact Option.noConfusion hc

/-- Either a check of `main` fails before the scan, whatever the list of
processes, or `main` scans with the constants of the host and sums. -/
theorem main_cases (h : Host) (data : Int) :
    (∃ e, ∀ pids fr, main h pids data fr = .error e ∧ e.2.kreads = []) ∨
    (∃ kp, h.kpagecount = some kp ∧ 0 < h.sc_pagesize ∧
      (0 < 2 * h.sc_phys_pages ∧ 2 * h.sc_phys_pages ≤ LONG_MAX) ∧
      ∀ pids fr, main h pids data fr =
        match analyze_all h (2 * h.sc_phys_pages) h.sc_pagesize kp data pids fr
            { counts := List.replicate (2 * h.sc_phys_pages).toNat 0, kreads := [] } with
        | .error e => .error e
        | .ok (_, st) =>
          match saved_pages st.counts (2 * h.sc_phys_pages) with
          | none => .error (.undefined, st)
          | some saved => .ok (st, saved)) := by
  by_cases h1 : h.uid ≠ 0
  · left
    exact ⟨_, fun pids fr => ⟨by unfold main; dsimp only; rw [if_pos h1], rfl⟩⟩
  by_cases h2 : ¬ (h.sc_pagesize > 0)
  · left
    exact ⟨_, fun pids fr => ⟨by unfold main; dsimp only; rw [if_neg h1, if_pos h2], rfl⟩⟩
  by_cases h3 : 2 * h.sc_phys_pages < LONG_MIN ∨ LONG_MAX < 2 * h.sc_phys_pages
  · left
    exact ⟨_, fun pids fr =>
      ⟨by unfold main; dsimp only; rw [if_neg h1, if_neg h2, if_pos h3], rfl⟩⟩
  by_cases h4 : ¬ (2 * h.sc_phys_pages > 0)
  · left
    exact ⟨_, fun pids fr =>
      ⟨by unfold main; dsimp only; rw [if_neg h1, if_neg h2, if_neg h3, if_pos h4], rfl⟩⟩
  by_cases h5 : LONG_MAX < h.sc_pagesize * (2 * h.sc_phys_pages)
  · left
    exact ⟨_, fun pids fr =>
      ⟨by unfold main; dsimp only; rw [if_neg h1, if_neg h2, if_neg h3, if_neg h4, if_pos h5],
        rfl⟩⟩
  cases hk : h.kpagecount with
  | none =>
    left
    exact ⟨_, fun pids fr =>
      ⟨by unfold main; dsimp only
          rw [if_neg h1, if_neg h2, if_neg h3, if_neg h4, if_neg h5, hk], rfl⟩⟩
  | some kp =>
    right
    refine ⟨kp, rfl, by omega, ⟨by omega, by omega⟩, fun pids fr => ?_⟩
    unfold main
    dsimp only
    rw [if_neg h1, if_neg h2, if_neg h3, if_neg h4, if_neg h5, hk]

/-- What a completed run of `main` went through. -/
theorem main_ok (h : Host) (pids : List Int) (data : Int) (fr : Frame) (st : State)
    (saved : Int) (hrun : main h pids data fr = .ok (st, saved)) :
    ∃ kp, h.kpagecount = some kp ∧
      (0 < 2 * h.sc_phys_pages ∧ 2 * h.sc_phys_pages ≤ LONG_MAX) ∧
      (∀ f ∈ touched_frames h pids data fr,
        f < (2 * h.sc_phys_pages).toNat ∧ (kp (8 * f)).isSome = true) ∧
      st = record_all kp { counts := List.replicate (2 * h.sc_phys_pages).toNat 0, kreads := [] }
        (touched_frames h pids data fr) ∧
      saved_pages st.counts (2 * h.sc_phys_pages) = some saved := by
  rcases main_cases h data with ⟨e, he⟩ | ⟨kp, hk, _, hmp, hm⟩
  · rw [(he pids fr).1] at hrun
    exact Except.noConfusion hrun
  · refine ⟨kp, hk, hmp, ?_⟩
    have hspec := analyze_all_spec h (2 * h.sc_phys_pages) h.sc_pagesize kp data pids fr _ hmp
      (good_zero kp (2 * h.sc_phys_pages))
    rw [hm pids fr] at hrun
    cases ha : analyze_all h (2 * h.sc_phys_pages) h.sc_pagesize kp data pids fr
        { counts := List.replicate (2 * h.sc_phys_pages).toNat 0, kreads := [] } with
    | error e =>
      rw [ha] at hrun
      exact Except.noConfusion hrun
    | ok r =>
      obtain ⟨fr1, st1⟩ := r
      rw [ha] at hrun hspec
      dsimp only at hrun
      cases hs : saved_pages st1.counts (2 * h.sc_phys_pages) with
      | none =>
        rw [hs] at hrun
        exact Except.noConfusion hrun
      | some sv =>
        rw [hs] at hrun
        have hpair : (st1, sv) = (st, saved) := Except.ok.inj hrun
        have hst : st1 = st := congrArg Prod.fst hpair
        have hsv : sv = saved := congrArg Prod.snd hpair
        subst hst hsv
        cases hscan : run_scan h (2 * h.sc_phys_pages) h.sc_pagesize kp data pids fr with
        | none =>
          rw [hscan] at hspec
          exact Option.noConfusion hspec
        | some r2 =>
          obtain ⟨fs, fr2⟩ := r2
          rw [hscan] at hspec
          have htf : touched_frames h pids data fr = fs := by
            unfold touched_frames
            rw [hk]
            dsimp only
            rw [hscan]
          have hpair2 : (fr1, st1) = (fr2, record_all kp _ fs) := Option.some.inj hspec
          rw [htf]
          exact ⟨run_scan_frames h _ _ kp data hmp pids fr fs fr2 hscan,
            congrArg Prod.snd hpair2, hs⟩

/-! ## The final loop -/

/-- A value returned by the final loop is the running total plus the sum of
`counts[i] - 1` over the non-zero slots visited. -/
theorem saved_loop_some (counts : List Int) (n pfn : Nat) (acc s : Int)
    (h : saved_loop counts n pfn acc = some s) :
    s = acc + ∑ i ∈ Finset.range n,
      (if counts.getD (pfn + i) 0 ≠ 0 then counts.getD (pfn + i) 0 - 1 else 0) := by
  induction n generalizing pfn acc with
  | zero =>
    simp [saved_loop] at h
    simp [h]
  | succ n ih =>
    unfold saved_loop at h
    cases hc : counts[pfn]? with
    | none => rw [hc] at h; exact Option.noConfusion h
    | some c =>
      rw [hc] at h
      dsimp only at h
      have hget : counts.getD (pfn + 0) 0 = c := by
        rw [Nat.add_zero, List.getD_eq_getElem?_getD, hc]; rfl
      have hcongr : ∑ i ∈ Finset.range n,
          (if counts.getD (pfn + (i + 1)) 0 ≠ 0 then counts.getD (pfn + (i + 1)) 0 - 1 else 0) =
          ∑ i ∈ Finset.range n,
          (if counts.getD (pfn + 1 + i) 0 ≠ 0 then counts.getD (pfn + 1 + i) 0 - 1 else 0) :=
        Finset.sum_congr rfl (fun i _ => by rw [Nat.add_right_comm pfn 1 i, Nat.add_assoc])
      rw [Finset.sum_range_succ', hcongr, hget]
      split at h
      · rename_i hne
        split at h
        · exact Option.noConfusion h
        · split at h
          · exact Option.noConfusion h
          · rw [ih _ _ h, if_pos hne]
            ring
      · rename_i hz
        rw [ih _ _ h, if_neg hz]
        ring

/-! ## A frame with a non-zero stored count is read at most once -/

theorem kcount_none (kp : BinFile) (f : Nat) (h : kp (8 * f) = none) : kcount kp f = 0 := by
  unfold kcount
  rw [h]

theorem kcount_some (kp : BinFile) (f count : Nat) (h : kp (8 * f) = some count) :
    kcount kp f = to_int ((count % 2 ^ 64 : Nat) : Int) := by
  unfold kcount
  rw [h]

theorem readinv_failed_read (kp : BinFile) (st : State) (pfn : Nat) (h : ReadInv kp st)
    (hk : kp (8 * pfn) = none) :
    ReadInv kp { st with kreads := st.kreads ++ [pfn] } := by
  intro F hF
  have hne : pfn ≠ F := fun e => hF (e ▸ kcount_none kp pfn hk)
  have hcount : (st.kreads ++ [pfn]).count F = st.kreads.count F := by
    simp [List.count_append, List.count_cons, hne]
  show (st.kreads ++ [pfn]).count F = 0 ∨
    ((st.kreads ++ [pfn]).count F = 1 ∧ st.counts[F]? = some (kcount kp F))
  rw [hcount]
  exact h F hF

theorem readinv_recorded (kp : BinFile) (st : State) (pfn count : Nat) (h : ReadInv kp st)
    (h0 : st.counts[pfn]? = some 0) (hk : kp (8 * pfn) = some count) :
    ReadInv kp { counts := st.counts.set pfn (to_int ((count % 2 ^ 64 : Nat) : Int)),
                 kreads := st.kreads ++ [pfn] } := by
  intro F hF
  show (st.kreads ++ [pfn]).count F = 0 ∨
    ((st.kreads ++ [pfn]).count F = 1 ∧
      (st.counts.set pfn (to_int ((count % 2 ^ 64 : Nat) : Int)))[F]? = some (kcount kp F))
  by_cases hne : pfn = F
  · subst hne
    have hlt : pfn < st.counts.length := by
      by_contra hge
      rw [List.getElem?_eq_none (by omega)] at h0
      exact Option.noConfusion h0
    have hzero : st.kreads.count pfn = 0 := by
      rcases h pfn hF with hz | ⟨_, hc⟩
      · exact hz
      · rw [h0] at hc
        exact absurd (Option.some.inj hc).symm hF
    right
    constructor
    · simp [List.count_append, hzero]
    · rw [List.getElem?_set_self hlt, kcount_some kp pfn count hk]
  · have hcount : (st.kreads ++ [pfn]).count F = st.kreads.count F := by
      simp [List.count_append, List.count_cons, hne]
    rw [hcount, List.getElem?_set_ne hne]
    exact h F hF

theorem readinv_resolve_page (pm kp : BinFile) (mp page : Int) (st : State)
    (h : ReadInv kp st) : ReadInv kp (end_state id (resolve_page pm kp mp page st)) := by
  by_cases h1 : 8 * page < LONG_MIN ∨ LONG_MAX < 8 * page
  · unfold resolve_page
    dsimp only
    rw [if_pos h1]
    exact h
  by_cases h2 : 8 * page < 0
  · unfold resolve_page
    dsimp only
    rw [if_neg h1, if_pos h2]
    exact h
  cases hrec : pm (8 * page).toNat with
  | none =>
    unfold resolve_page
    dsimp only
    rw [if_neg h1, if_neg h2, hrec]
    exact h
  | some w =>
    rw [resolve_page_read pm kp mp page st w ⟨by omega, by omega⟩ hrec]
    split
    · exact h
    · split
      · exact h
      · split
        · exact h
        · rename_i c hc
          split
          · exact h
          · rename_i hz
            have hc0 : st.counts[(w % 2 ^ 64) &&& ((1 <<< 55) - 1)]? = some 0 := by
              rw [hc, not_not.mp hz]
            split
            · rename_i hk
              exact readinv_failed_read kp st _ h hk
            · rename_i count hk
              exact readinv_recorded kp st _ count h hc0 hk

theorem readinv_scan_range (pm kp : BinFile) (mp : Int) (n : Nat) (page : Int) (st : State)
    (h : ReadInv kp st) : ReadInv kp (end_state id (scan_range pm kp mp n page st)) := by
  induction n generalizing page st with
  | zero => exact h
  | succ n ih =>
    unfold scan_range
    have hp := readinv_resolve_page pm kp mp page st h
    cases hr : resolve_page pm kp mp page st with
    | error e =>
      rw [hr] at hp
      exact hp
    | ok st1 =>
      rw [hr] at hp
      exact ih _ st1 hp

theorem readinv_analyze_line (pm kp : BinFile) (mp ps data : Int) (s : List Char)
    (fr : Frame) (st : State) (h : ReadInv kp st) :
    ReadInv kp (end_state Prod.snd (analyze_line pm kp mp ps data s fr st)) := by
  unfold analyze_line
  cases hp : parse_line ps data s fr with
  | mk fr1 act =>
    cases act with
    | undefined => exact h
    | skip => exact h
    | scan b n =>
      dsimp only
      have hs := readinv_scan_range pm kp mp n b st h
      cases hr : scan_range pm kp mp n b st with
      | error e =>
        rw [hr] at hs
        exact hs
      | ok st1 =>
        rw [hr] at hs
        exact hs

theorem frame_loop_inv {α : Type} (P : State → Prop)
    (step : α → Frame → State → FrameResult)
    (hstep : ∀ x fr st, P st → P (end_state Prod.snd (step x fr st)))
    (xs : List α) (fr : Frame) (st : State) (h : P st) :
    P (end_state Prod.snd (frame_loop step xs fr st)) := by
  induction xs generalizing fr st with
  | nil => exact h
  | cons x xs ih =>
    unfold frame_loop
    have hx := hstep x fr st h
    cases hr : step x fr st with
    | error e =>
      rw [hr] at hx
      exact hx
    | ok r =>
      rw [hr] at hx
      exact ih r.1 r.2 hx

theorem readinv_analyze_pid (h : Host) (pid : Int) (st : State) (mp ps : Int) (kp : BinFile)
    (data : Int) (fr : Frame) (hst : ReadInv kp st) :
    ReadInv kp (end_state Prod.snd (analyze_pid h pid st mp ps kp data fr)) := by
  unfold analyze_pid
  cases (h.proc pid).maps with
  | none => exact hst
  | some lines =>
    cases (h.proc pid).pagemap with
    | none => exact hst
    | some pm =>
      dsimp only
      rw [maps_loop_eq]
      exact frame_loop_inv _ _ (fun x f s hs => readinv_analyze_line pm kp mp ps data x f s hs)
        lines fr st hst

theorem readinv_analyze_all (h : Host) (mp ps : Int) (kp : BinFile) (data : Int)
    (pids : List Int) (fr : Frame) (st : State) (hst : ReadInv kp st) :
    ReadInv kp (end_state Prod.snd (analyze_all h mp ps kp data pids fr st)) := by
  rw [analyze_all_eq]
  exact frame_loop_inv _ _ (fun x f s hs => readinv_analyze_pid h x s mp ps kp data f hs)
    pids fr st hst

/-- The table after a completed run: the slot of a touched frame holds its
stored count, every other slot holds 0. -/
theorem final_counts (kp : BinFile) (n : Nat) (fs : List Nat) (i : Nat) (hi : i < n) :
    (record_all kp { counts := List.replicate n 0, kreads := [] } fs).counts[i]? =
      if i ∈ fs then some (kcount kp i) else some 0 := by
  rw [record_all_counts]
  have hz : (List.replicate n (0 : Int))[i]? = some 0 := by
    rw [List.getElem?_replicate, if_pos hi]
  simp only [hz, and_true]

theorem kcount_eq_kernel_count (h : Host) (kp : BinFile) (hk : h.kpagecount = some kp)
    (f : Nat) : kcount kp f = to_int (kernel_count h f) := by
  unfold kcount kernel_count
  rw [hk]
  dsimp only
  cases kp (8 * f) with
  | none => rfl
  | some count => rfl

theorem to_int_eq_zero_iff (r : Nat) : to_int r = 0 ↔ r % 2 ^ 32 = 0 := by
  unfold to_int
  omega

/-- In the state a run of `main` ends in, completed or aborted, no frame whose
stored count is not 0 has been read more than once. -/
theorem main_reads_at_most_once (h : Host) (pids : List Int) (data : Int) (fr : Frame)
    (F : Nat) (hF : kernel_count h F % 2 ^ 32 ≠ 0) :
    (end_state Prod.fst (main h pids data fr)).kreads.count F ≤ 1 := by
  rcases main_cases h data with ⟨e, he⟩ | ⟨kp, hk, _, hmp, hm⟩
  · rw [(he pids fr).1]
    show e.2.kreads.count F ≤ 1
    rw [(he pids fr).2]
    simp
  · have hkc : kcount kp F ≠ 0 := by
      rw [kcount_eq_kernel_count h kp hk]
      exact fun h0 => hF ((to_int_eq_zero_iff _).mp h0)
    have hzero : ReadInv kp
        { counts := List.replicate (2 * h.sc_phys_pages).toNat 0, kreads := [] } := by
      intro G _
      left
      rfl
    have hinv := readinv_analyze_all h (2 * h.sc_phys_pages) h.sc_pagesize kp data pids fr _ hzero
    have hle : ∀ st : State, ReadInv kp st → st.kreads.count F ≤ 1 := by
      intro st hst
      rcases hst F hkc with hz | ⟨h1, _⟩
      · omega
      · omega
    rw [hm pids fr]
    cases ha : analyze_all h (2 * h.sc_phys_pages) h.sc_pagesize kp data pids fr
        { counts := List.replicate (2 * h.sc_phys_pages).toNat 0, kreads := [] } with
    | error e =>
      rw [ha] at hinv
      exact hle _ hinv
    | ok r =>
      rw [ha] at hinv
      dsimp only
      cases saved_pages r.2.counts (2 * h.sc_phys_pages) with
      | none => exact hle _ hinv
      | some saved => exact hle _ hinv

/-! ## Claims C6, C7 and C10: one page -/

/-- C6: a page whose page-table record has bit 63 equal to 0, whatever its other
bits are, leaves the whole state unchanged: no slot of the table is modified, no
record of `kpagecount` is sought or read (the trace `kreads` is unchanged) and
no error is raised. -/
theorem C6_absent_page_no_effect (pagemap kpagecount : BinFile) (max_pages page : Int)
    (st : State) (w : Nat) (hpage : 0 ≤ page ∧ 8 * page ≤ LONG_MAX)
    (hrec : pagemap (8 * page).toNat = some w) (hbit : w.testBit 63 = false) :
    resolve_page pagemap kpagecount max_pages page st = .ok st := by
  have hp : ¬ ((w % 2 ^ 64) >>> 63 = 1) := by
    rw [present_iff]; simp [hbit]
  rw [resolve_page_read pagemap kpagecount max_pages page st w hpage hrec,
    if_pos hp]

/-- Witness of C6: the record `2^62 + 2^54` (bit 63 clear, low 55 bits far above
`max_pages = 4`) on page 3. -/
theorem C6_absent_page_no_effect_witness :
    (0 ≤ (3 : Int) ∧ 8 * (3 : Int) ≤ LONG_MAX) ∧
    (2 ^ 62 + 2 ^ 54 : Nat).testBit 63 = false ∧
    resolve_page (fun _ => some (2 ^ 62 + 2 ^ 54)) (fun _ => none) 4 3
      { counts := [0, 7, 0, 0], kreads := [1] } = .ok { counts := [0, 7, 0, 0], kreads := [1] } :=
  ⟨by decide, by decide,
    C6_absent_page_no_effect (fun _ => some (2 ^ 62 + 2 ^ 54)) (fun _ => none) 4 3
      { counts := [0, 7, 0, 0], kreads := [1] } (2 ^ 62 + 2 ^ 54) (by decide) rfl (by decide)⟩

/-- C7: for a record with bit 63 set and `max_pages > 0`: when the frame number
(the record modulo `2^55`) is at least `max_pages`, resolving the page aborts
with the fatal error "PFN too large" in the unchanged state (nothing read from
`kpagecount`, no slot modified); when it is below `max_pages`, that check does
not fail and the slot accessed lies inside a table of `max_pages` slots. -/
theorem C7_frame_number_bound (pagemap kpagecount : BinFile) (max_pages page : Int)
    (st : State) (w : Nat) (hmax : 0 < max_pages ∧ max_pages ≤ LONG_MAX)
    (hpage : 0 ≤ page ∧ 8 * page ≤ LONG_MAX)
    (hrec : pagemap (8 * page).toNat = some w) (hbit : w.testBit 63 = true) :
    (max_pages ≤ ((w % 2 ^ 55 : Nat) : Int) →
      resolve_page pagemap kpagecount max_pages page st =
        .error (.fatal .pfn_too_large, st)) ∧
    (((w % 2 ^ 55 : Nat) : Int) < max_pages →
      (∀ s, resolve_page pagemap kpagecount max_pages page st ≠
        .error (.fatal .pfn_too_large, s)) ∧
      (st.counts.length = max_pages.toNat →
        w % 2 ^ 55 < st.counts.length ∧
        ∀ s, resolve_page pagemap kpagecount max_pages page st ≠ .error (.undefined, s))) := by
  have hp : (w % 2 ^ 64) >>> 63 = 1 := (present_iff w).mpr hbit
  have hpfn : (w % 2 ^ 64) &&& ((1 <<< 55) - 1) = w % 2 ^ 55 := by
    rw [pfn_mask]; omega
  have hread := resolve_page_read pagemap kpagecount max_pages page st w hpage hrec
  rw [if_neg (not_not.mpr hp), hpfn, to_ulong_of_pos max_pages hmax.1 hmax.2] at hread
  constructor
  · intro hge
    have hnlt : ¬ (w % 2 ^ 55 < max_pages.toNat) := by omega
    rw [hread, if_pos hnlt]
  · intro hlt
    have hlt' : w % 2 ^ 55 < max_pages.toNat := by omega
    rw [if_neg (not_not.mpr hlt')] at hread
    constructor
    · intro s
      rw [hread]
      split
      · exact fun h => Abort.noConfusion (congrArg Prod.fst (Except.error.inj h))
      · split
        · exact fun h => Except.noConfusion h
        · split
          · intro h
            exact Check.noConfusion (Abort.fatal.inj (congrArg Prod.fst (Except.error.inj h)))
          · exact fun h => Except.noConfusion h
    · intro hlen
      have hin : w % 2 ^ 55 < st.counts.length := by rw [hlen]; exact hlt'
      refine ⟨hin, fun s => ?_⟩
      rw [hread, List.getElem?_eq_getElem hin]
      dsimp only
      split
      · exact fun h => Except.noConfusion h
      · split
        · exact fun h => Abort.noConfusion (congrArg Prod.fst (Except.error.inj h))
        · exact fun h => Except.noConfusion h

/-- Witness of C7: with `max_pages = 4`, the present record with frame number 9
is fatal in the unchanged state, the present record with frame number 2 is
recorded. -/
theorem C7_frame_number_bound_witness :
    resolve_page (fun _ => some (2 ^ 63 + 9)) (fun _ => some 5) 4 3
      { counts := [0, 7, 0, 0], kreads := [1] } =
      .error (.fatal .pfn_too_large, { counts := [0, 7, 0, 0], kreads := [1] }) ∧
    resolve_page (fun _ => some (2 ^ 63 + 2)) (fun _ => some 5) 4 3
      { counts := [0, 7, 0, 0], kreads := [1] } =
      .ok { counts := [0, 7, 5, 0], kreads := [1, 2] } :=
  ⟨(C7_frame_number_bound (fun _ => some (2 ^ 63 + 9)) (fun _ => some 5) 4 3
      { counts := [0, 7, 0, 0], kreads := [1] } (2 ^ 63 + 9) (by decide) (by decide) rfl
      (by decide)).1 (by decide),
    by rfl⟩

/-- Counterexample to C10 as stated: frame 1 holds 0, its `kpagecount` record is
`2^31`, and after resolving the page slot 1 holds `-2^31`, not `2^31`. -/
theorem C10_counterexample :
    resolve_page (fun _ => some (2 ^ 63 + 1)) (fun _ => some (2 ^ 31)) 2 0
      { counts := [0, 0], kreads := [] } = .ok { counts := [0, -2147483648], kreads := [1] } ∧
    ([0, -2147483648] : List Int)[1]? ≠ some (2 ^ 31) := by
  constructor
  · rfl
  · decide

/-- C10 (amended): for a present record with frame number `f < max_pages`: if
slot `f` holds 0 and `kpagecount` holds the record `r` at byte offset `8 * f`,
then resolving the page succeeds, slot `f` afterwards holds `r` converted to
`int` (`r` itself when `r < 2^31`) and every other slot is unchanged; if slot
`f` holds a non-zero value, the whole state is unchanged. -/
theorem C10_recording_postcondition (pagemap kpagecount : BinFile) (max_pages page : Int)
    (st : State) (w : Nat) (hmax : 0 < max_pages ∧ max_pages ≤ LONG_MAX)
    (hpage : 0 ≤ page ∧ 8 * page ≤ LONG_MAX)
    (hrec : pagemap (8 * page).toNat = some w) (hbit : w.testBit 63 = true)
    (hlt : ((w % 2 ^ 55 : Nat) : Int) < max_pages) :
    (∀ r, st.counts[w % 2 ^ 55]? = some 0 → kpagecount (8 * (w % 2 ^ 55)) = some r →
      ∃ st', resolve_page pagemap kpagecount max_pages page st = .ok st' ∧
        st'.counts[w % 2 ^ 55]? = some (to_int r) ∧
        (r < 2 ^ 31 → st'.counts[w % 2 ^ 55]? = some (r : Int)) ∧
        ∀ i, i ≠ w % 2 ^ 55 → st'.counts[i]? = st.counts[i]?) ∧
    (∀ c, st.counts[w % 2 ^ 55]? = some c → c ≠ 0 →
      resolve_page pagemap kpagecount max_pages page st = .ok st) := by
  have hp : (w % 2 ^ 64) >>> 63 = 1 := (present_iff w).mpr hbit
  have hpfn : (w % 2 ^ 64) &&& ((1 <<< 55) - 1) = w % 2 ^ 55 := by
    rw [pfn_mask]; omega
  have hlt' : w % 2 ^ 55 < max_pages.toNat := by omega
  have hread := resolve_page_read pagemap kpagecount max_pages page st w hpage hrec
  rw [if_neg (not_not.mpr hp), hpfn, to_ulong_of_pos max_pages hmax.1 hmax.2,
    if_neg (not_not.mpr hlt')] at hread
  constructor
  · intro r h0 hk
    have hin : w % 2 ^ 55 < st.counts.length := by
      by_contra hge
      rw [List.getElem?_eq_none (by omega)] at h0
      exact Option.noConfusion h0
    rw [h0, hk] at hread
    dsimp only at hread
    rw [if_neg (not_not.mpr rfl), to_int_mod] at hread
    refine ⟨_, hread, ?_, ?_, ?_⟩
    · exact List.getElem?_set_self hin
    · intro hr
      rw [to_int_small r hr]
      exact List.getElem?_set_self hin
    · intro i hi
      exact List.getElem?_set_ne (Ne.symm hi)
  · intro c hc hne
    rw [hc] at hread
    dsimp only at hread
    rw [if_pos hne] at hread
    exact hread

/-- Witness of C10 (amended): frame 2 of a 4-slot table, record 5. -/
theorem C10_recording_postcondition_witness :
    ∃ st', resolve_page (fun _ => some (2 ^ 63 + 2)) (fun _ => some 5) 4 3
        { counts := [0, 7, 0, 0], kreads := [1] } = .ok st' ∧
      st'.counts[(2 ^ 63 + 2) % 2 ^ 55]? = some (to_int (5 : Nat)) ∧
      ((5 : Nat) < 2 ^ 31 → st'.counts[(2 ^ 63 + 2) % 2 ^ 55]? = some ((5 : Nat) : Int)) ∧
      ∀ i, i ≠ (2 ^ 63 + 2) % 2 ^ 55 →
        st'.counts[i]? = ({ counts := [0, 7, 0, 0], kreads := [1] } : State).counts[i]? :=
  (C10_recording_postcondition (fun _ => some (2 ^ 63 + 2)) (fun _ => some 5) 4 3
    { counts := [0, 7, 0, 0], kreads := [1] } (2 ^ 63 + 2) (by decide) (by decide) rfl
    (by decide) (by decide)).1 5 (by decide) rfl

/-! ## Claim C5: the final loop -/

theorem nonzero_saved_cons (c : Int) (cs : List Int) :
    nonzero_saved (c :: cs) = (if c ≠ 0 then c - 1 else 0) + nonzero_saved cs := by
  unfold nonzero_saved
  by_cases hc : c = 0
  · simp [List.filter_cons, hc]
  · simp [List.filter_cons, hc]

theorem spec_saved_cons (c : Int) (cs : List Int) :
    spec_saved (c :: cs) = (if 0 < c then c - 1 else 0) + spec_saved cs := by
  unfold spec_saved
  by_cases hc : 0 < c
  · simp [List.filter_cons, hc]
  · simp [List.filter_cons, hc]

theorem nonzero_saved_eq_spec (counts : List Int) (h : ∀ c ∈ counts, 0 ≤ c) :
    nonzero_saved counts = spec_saved counts := by
  induction counts with
  | nil => rfl
  | cons c cs ih =>
    rw [nonzero_saved_cons, spec_saved_cons, ih (fun x hx => h x (List.mem_cons_of_mem c hx))]
    have hc : 0 ≤ c := h c (List.mem_cons_self c cs)
    by_cases h0 : c = 0
    · simp [h0]
    · have hpos : 0 < c := lt_of_le_of_ne hc (Ne.symm h0)
      rw [if_pos h0, if_pos hpos]

/-- A value returned by the final loop over the slots from `pfn` to the end of
the table is the running total plus the sum over the non-zero slots. -/
theorem saved_loop_partial (counts : List Int) (n pfn : Nat) (acc s : Int)
    (hn : pfn + n = counts.length) (h : saved_loop counts n pfn acc = some s) :
    s = acc + nonzero_saved (counts.drop pfn) := by
  induction n generalizing pfn acc with
  | zero =>
    have hp : counts.length ≤ pfn := by omega
    rw [List.drop_eq_nil_of_le hp]
    simp only [saved_loop, Option.some.injEq] at h
    simp [nonzero_saved, h]
  | succ n ih =>
    have hp : pfn < counts.length := by omega
    rw [List.drop_eq_getElem_cons hp, nonzero_saved_cons]
    unfold saved_loop at h
    rw [List.getElem?_eq_getElem hp] at h
    dsimp only at h
    split at h
    · rename_i hne
      split at h
      · exact Option.noConfusion h
      · split at h
        · exact Option.noConfusion h
        · rw [ih (pfn + 1) _ (by omega) h, if_pos hne]
          ring
    · rename_i hz
      rw [ih (pfn + 1) _ (by omega) h, if_neg hz]
      ring

/-- The final loop returns the sum over the non-zero slots when no slot holds
`INT_MIN` and the total cannot leave the range of `long`. -/
theorem saved_loop_total (counts : List Int)
    (hrange : ∀ c ∈ counts, INT_MIN < c ∧ c ≤ INT_MAX) (n pfn : Nat) (acc : Int)
    (hn : pfn + n = counts.length)
    (hlo : LONG_MIN ≤ acc - 2 ^ 31 * (n : Int)) (hhi : acc + 2 ^ 31 * (n : Int) ≤ LONG_MAX) :
    saved_loop counts n pfn acc = some (acc + nonzero_saved (counts.drop pfn)) := by
  induction n generalizing pfn acc with
  | zero =>
    have hp : counts.length ≤ pfn := by omega
    rw [List.drop_eq_nil_of_le hp]
    simp [saved_loop, nonzero_saved]
  | succ n ih =>
    have hp : pfn < counts.length := by omega
    have hc := hrange counts[pfn] (List.getElem_mem hp)
    unfold INT_MIN INT_MAX at hc
    unfold LONG_MIN at hlo
    unfold LONG_MAX at hhi
    push_cast at hlo hhi
    rw [List.drop_eq_getElem_cons hp, nonzero_saved_cons]
    unfold saved_loop
    rw [List.getElem?_eq_getElem hp]
    dsimp only
    by_cases h0 : counts[pfn] = 0
    · rw [if_neg (not_not.mpr h0), if_neg (not_not.mpr h0)]
      rw [ih (pfn + 1) acc (by omega) (by unfold LONG_MIN; omega) (by unfold LONG_MAX; omega)]
      simp
    · rw [if_pos h0, if_pos h0]
      have h1 : ¬ (counts[pfn] - 1 < INT_MIN) := by unfold INT_MIN; omega
      have h2 : ¬ (acc + (counts[pfn] - 1) < LONG_MIN ∨ LONG_MAX < acc + (counts[pfn] - 1)) := by
        unfold LONG_MIN LONG_MAX; omega
      rw [if_neg h1, if_neg h2]
      rw [ih (pfn + 1) (acc + (counts[pfn] - 1)) (by omega) (by unfold LONG_MIN; omega)
        (by unfold LONG_MAX; omega)]
      rw [add_assoc]

/-- Counterexample to C5 as stated: for the one-slot table holding `-1` the
final loop yields `-2`, while the sum over the frames with count greater than 0
is 0. -/
theorem C5_counterexample :
    saved_pages [-1] 1 = some (-2) ∧ spec_saved [-1] = 0 := by
  constructor
  · rfl
  · rfl

/-- C5 (amended): for every table of `max_pages` counts, whenever the final
loop of `main` completes (its `int` and `long` arithmetic does not overflow) the
value of `saved` is the sum, over the frames whose count is not 0 (negative
counts included), of the count minus 1; frames with count 0 contribute 0.  The
loop does complete when no count is `INT_MIN` and `max_pages ≤ 2^31`.  When no
count is negative the sum is the one over the frames whose count is greater
than 0. -/
theorem C5_reduction (counts : List Int) (max_pages : Int)
    (hlen : (counts.length : Int) = max_pages) :
    (∀ s, saved_pages counts max_pages = some s → s = nonzero_saved counts) ∧
    ((∀ c ∈ counts, INT_MIN < c ∧ c ≤ INT_MAX) → max_pages ≤ 2 ^ 31 →
      saved_pages counts max_pages = some (nonzero_saved counts)) ∧
    ((∀ c ∈ counts, 0 ≤ c) → nonzero_saved counts = spec_saved counts) := by
  have hn : max_pages.toNat = counts.length := by omega
  refine ⟨fun s hs => ?_, fun hrange hsize => ?_, nonzero_saved_eq_spec counts⟩
  · unfold saved_pages at hs
    rw [hn] at hs
    have h := saved_loop_partial counts counts.length 0 0 s (by omega) hs
    simpa using h
  · unfold saved_pages
    rw [hn, saved_loop_total counts hrange counts.length 0 0 (by omega)
      (by unfold LONG_MIN; omega) (by unfold LONG_MAX; omega)]
    simp

/-- Witness of C5 (amended): the counts 3, 1 and 0 give 2. -/
theorem C5_reduction_witness :
    saved_pages [3, 1, 0] 3 = some 2 ∧ nonzero_saved [3, 1, 0] = 2 ∧
    spec_saved [3, 1, 0] = 2 :=
  ⟨((C5_reduction [3, 1, 0] 3 (by decide)).2.1 (by decide) (by decide)).trans (by decide),
    ((C5_reduction [3, 1, 0] 3 (by decide)).1 2 (by decide)).symm,
    ((C5_reduction [3, 1, 0] 3 (by decide)).2.2 (by decide)).symm.trans (by decide)⟩

/-! ## Whole runs: what holds for every completed run -/

/-- For every run of `main` that completes, if every frame that a resident
scanned page resolves to has a `kpagecount` record `c(f)` with
`1 ≤ c(f) < 2^31`, then the value of `saved` equals the sum of `c(f) - 1` over
the set of distinct such frames. -/
theorem saved_pages_of_scanned_frames (h : Host) (pids : List Int) (data : Int)
    (fr : Frame) (st : State) (saved : Int)
    (hrun : main h pids data fr = .ok (st, saved))
    (hc : ∀ f ∈ touched_frames h pids data fr,
      1 ≤ kernel_count h f ∧ kernel_count h f < 2 ^ 31) :
    saved = ∑ f ∈ (touched_frames h pids data fr).toFinset,
      ((kernel_count h f : Int) - 1) := by
  obtain ⟨kp, hk, hmp, hbound, hst, hsaved⟩ := main_ok h pids data fr st saved hrun
  have hsum := saved_loop_some st.counts _ 0 0 saved hsaved
  rw [hsum, zero_add]
  have hterm : ∀ i ∈ Finset.range (2 * h.sc_phys_pages).toNat,
      (if st.counts.getD (0 + i) 0 ≠ 0 then st.counts.getD (0 + i) 0 - 1 else 0) =
      if i ∈ touched_frames h pids data fr then ((kernel_count h i : Int) - 1) else 0 := by
    intro i hi
    have hi' : i < (2 * h.sc_phys_pages).toNat := Finset.mem_range.mp hi
    have hget : st.counts[i]? =
        if i ∈ touched_frames h pids data fr then some (kcount kp i) else some 0 := by
      rw [hst]; exact final_counts kp _ _ i hi'
    rw [Nat.zero_add, List.getD_eq_getElem?_getD, hget]
    by_cases hmem : i ∈ touched_frames h pids data fr
    · have hci := hc i hmem
      have hkc : kcount kp i = (kernel_count h i : Int) := by
        rw [kcount_eq_kernel_count h kp hk, to_int_small _ hci.2]
      simp only [hmem, if_true, Option.getD_some, hkc]
      rw [if_pos (by omega)]
    · simp only [hmem, if_false, Option.getD_some]
      simp
  rw [Finset.sum_congr rfl hterm]
  have hsub : (touched_frames h pids data fr).toFinset ⊆
      Finset.range (2 * h.sc_phys_pages).toNat := by
    intro f hf
    exact Finset.mem_range.mpr (hbound f (List.mem_toFinset.mp hf)).1
  rw [← Finset.sum_subset hsub (fun x _ hx => if_neg (fun hm => hx (List.mem_toFinset.mpr hm)))]
  exact Finset.sum_congr rfl (fun x hx => if_pos (List.mem_toFinset.mp hx))

/-- The table of a completed run is determined by the set of frames the scanned
resident pages resolve to: two completed runs on the same host that touch the
same frames end with the same table and the same value of `saved`. -/
theorem table_of_touched_frames (h : Host) (data1 data2 : Int) (l1 l2 : List Int)
    (fr1 fr2 : Frame) (s1 s2 : State) (v1 v2 : Int)
    (h1 : main h l1 data1 fr1 = .ok (s1, v1)) (h2 : main h l2 data2 fr2 = .ok (s2, v2))
    (hsame : ∀ f, f ∈ touched_frames h l1 data1 fr1 ↔ f ∈ touched_frames h l2 data2 fr2) :
    s1.counts = s2.counts ∧ v1 = v2 := by
  obtain ⟨kp, hk, _, _, hst1, hsv1⟩ := main_ok h l1 data1 fr1 s1 v1 h1
  obtain ⟨kp', hk', _, _, hst2, hsv2⟩ := main_ok h l2 data2 fr2 s2 v2 h2
  have hkp : kp' = kp := Option.some.inj (hk'.symm.trans hk)
  subst hkp
  have hcounts : s1.counts = s2.counts := by
    apply List.ext_getElem?
    intro i
    rw [hst1, hst2, record_all_counts, record_all_counts]
    simp only [hsame i]
  refine ⟨hcounts, ?_⟩
  rw [hcounts, hsv2] at hsv1
  exact (Option.some.inj hsv1).symm

/-! ## Claims C2 and C4: runs over lines that are not converted completely -/

/-- C2 (evaluation at the failing input): process 5 of `demo_host` has the lines
`heap_line` and `hex_offset_line`.  By the fields written in the second line
(`r-xp`, inode 3411032, a path with ".so") the region is shareable, its 10 pages
are resident in the frames 20 to 29 and every frame has count 2, so that the sum
of `c(f) - 1` over these frames is 10.  Whatever the uninitialised variables
hold at the start, the run of `main` completes without reading `kpagecount` and
with `saved = 0`: `sscanf` stops in the offset `0001a000`, `inode` still holds
the 0 of the heap line and the region is skipped. -/
theorem C2_shareable_region_skipped (fr : Frame) :
    main demo_host [5] 0 fr = .ok ({ counts := List.replicate 32 0, kreads := [] }, 0) ∧
    (demo_host.proc 5).maps = some [heap_line, hex_offset_line] ∧
    region_selected 0 ['r', '-', 'x', 'p'] 3411032 "/usr/lib/libdemo.so".toList = true ∧
    (range_pages 10 (0x7f0000000000 / 4096)).filterMap (frame_of (demo_pagemap 20)) =
      [20, 21, 22, 23, 24, 25, 26, 27, 28, 29] ∧
    (∀ f ∈ [20, 21, 22, 23, 24, 25, 26, 27, 28, 29], kernel_count demo_host f = 2) ∧
    ∑ f ∈ [20, 21, 22, 23, 24, 25, 26, 27, 28, 29].toFinset,
      ((kernel_count demo_host f : Int) - 1) = 10 :=
  ⟨rfl, rfl, by decide, by decide, by decide, by decide⟩

/-- C4 (evaluation at the failing input): on `demo_host` the lists `[6, 1, 4]` and
`[1, 6, 4]` are permutations of each other and both runs of `main` complete,
whatever the uninitialised variables hold at the start, but with different
tables and different values of `saved`.  The only line of process 4 has the
offset `0001a000`, so `inode` and `prefix_len` keep what the process scanned
before left in them: after process 1 the region of process 4 is scanned (frames
20 to 29), after process 6 (inode 0) it is skipped. -/
theorem C4_order_dependence (fr : Frame) :
    List.Perm [(6 : Int), 1, 4] [1, 6, 4] ∧
    main demo_host [6, 1, 4] 0 fr =
      .ok ({ counts := [0, 0, 0, 0, 0, 2, 2, 2, 2, 2, 2, 2, 2, 2, 2, 0, 0, 0, 0, 0, 2, 2, 2, 2,
               2, 2, 2, 2, 2, 2, 0, 0],
             kreads := [5, 6, 7, 8, 9, 10, 11, 12, 13, 14, 20, 21, 22, 23, 24, 25, 26, 27, 28,
               29] }, 20) ∧
    main demo_host [1, 6, 4] 0 fr =
      .ok ({ counts := [0, 0, 0, 0, 0, 2, 2, 2, 2, 2, 2, 2, 2, 2, 2, 0, 0, 0, 0, 0, 0, 0, 0, 0,
               0, 0, 0, 0, 0, 0, 0, 0],
             kreads := [5, 6, 7, 8, 9, 10, 11, 12, 13, 14] }, 10) :=
  ⟨List.Perm.swap 1 6 [4], rfl, rfl⟩

/-! ## Claim C3: reads of `kpagecount` -/

/-- Counterexample to C3 as stated: on `zero_host` two pages resolve to frame 3,
whose record is 0, and the record is read twice. -/
theorem C3_counterexample :
    main zero_host [1] 0 fresh_frame =
      .ok ({ counts := [0, 0, 0, 0, 0, 0, 0, 0], kreads := [3, 3] }, 0) ∧
    3 ∈ touched_frames zero_host [1] 0 fresh_frame ∧ kernel_count zero_host 3 = 0 ∧
    List.count 3 [3, 3] ≠ 1 := by
  refine ⟨rfl, by decide, by decide, by decide⟩

/-- C3 (amended): for every run of `main`, whatever the uninitialised variables
hold and whether or not `sscanf` converts every line completely: in the state
the run ends in, completed or aborted, no frame whose record has low 32 bits
that are not all 0 has been read from `kpagecount` more than once; and over a
completed run, for every frame `F` that some resident scanned page resolves to,
the record of `F` is read exactly once when its low 32 bits are not all 0,
however many (process, page) pairs resolve to `F`, and once for every such pair
when the record is 0. -/
theorem C3_read_once (h : Host) (pids : List Int) (data : Int) (fr : Frame) (F : Nat) :
    (kernel_count h F % 2 ^ 32 ≠ 0 →
      (end_state Prod.fst (main h pids data fr)).kreads.count F ≤ 1) ∧
    (∀ st saved, main h pids data fr = .ok (st, saved) →
      F ∈ touched_frames h pids data fr →
      (kernel_count h F % 2 ^ 32 ≠ 0 → st.kreads.count F = 1) ∧
      (kernel_count h F = 0 →
        st.kreads.count F = (touched_frames h pids data fr).count F)) := by
  refine ⟨main_reads_at_most_once h pids data fr F, ?_⟩
  intro st saved hrun hF
  obtain ⟨kp, hk, hmp, hbound, hst, _⟩ := main_ok h pids data fr st saved hrun
  have hz : (List.replicate (2 * h.sc_phys_pages).toNat (0 : Int))[F]? = some 0 := by
    rw [List.getElem?_replicate, if_pos (hbound F hF).1]
  constructor
  · intro hne
    have hkc : kcount kp F ≠ 0 := by
      rw [kcount_eq_kernel_count h kp hk]
      exact fun h0 => hne ((to_int_eq_zero_iff _).mp h0)
    rw [hst, record_all_kreads_nonzero kp F hkc]
    simp only [List.count_nil, zero_add]
    rw [if_pos ⟨hF, hz⟩]
  · intro h0
    have hkc : kcount kp F = 0 := by
      rw [kcount_eq_kernel_count h kp hk, h0]
      rfl
    rw [hst, record_all_kreads_zero kp F hkc _ _ hz]
    simp

/-- Witness of C3 (amended): in the run over the processes 6, 1 and 4 of
`demo_host`, which goes through a line that `sscanf` converts only in part,
frame 7 and frame 25 are read once; on `zero_host` frame 3 has record 0 and is
read twice, once for each page. -/
theorem C3_read_once_witness :
    List.count 7 [5, 6, 7, 8, 9, 10, 11, 12, 13, 14, 20, 21, 22, 23, 24, 25, 26, 27, 28, 29] = 1 ∧
    List.count 25 [5, 6, 7, 8, 9, 10, 11, 12, 13, 14, 20, 21, 22, 23, 24, 25, 26, 27, 28, 29]
      ≤ 1 ∧
    List.count 3 [3, 3] = (touched_frames zero_host [1] 0 fresh_frame).count 3 :=
  ⟨((C3_read_once demo_host [6, 1, 4] 0 fresh_frame 7).2
      { counts := [0, 0, 0, 0, 0, 2, 2, 2, 2, 2, 2, 2, 2, 2, 2, 0, 0, 0, 0, 0, 2, 2, 2, 2,
          2, 2, 2, 2, 2, 2, 0, 0],
        kreads := [5, 6, 7, 8, 9, 10, 11, 12, 13, 14, 20, 21, 22, 23, 24, 25, 26, 27, 28, 29] }
      20 rfl (by decide)).1 (by decide),
    (C3_read_once demo_host [6, 1, 4] 0 fresh_frame 25).1 (by decide),
    ((C3_read_once zero_host [1] 0 fresh_frame 3).2
      { counts := [0, 0, 0, 0, 0, 0, 0, 0], kreads := [3, 3] } 0 rfl (by decide)).2
      (by decide)⟩

/-! ## Claims C8 and C9: the line parser -/

/-- The line `demo_line`, whose offset and device fields are made of decimal
digits, is converted completely, and lines 81-85 find the path in it. -/
theorem sscanf_maps_demo_line :
    (sscanf_maps demo_line fresh_vars).1 = 7 ∧
    (sscanf_maps demo_line fresh_vars).2.begin = some 0x7f0000000000 ∧
    (sscanf_maps demo_line fresh_vars).2.end_ = some 0x7f000000a000 ∧
    (sscanf_maps demo_line fresh_vars).2.perms = ['r', '-', 'x', 'p'] ∧
    (sscanf_maps demo_line fresh_vars).2.inode = some 3411032 ∧
    (sscanf_maps demo_line fresh_vars).2.prefix_len = some 53 ∧
    (parse_line 4096 0 demo_line fresh_frame).2 = .scan 0x7f0000000 10 ∧
    cstr ((parse_line 4096 0 demo_line fresh_frame).1.line.drop 57) =
      "/usr/lib/libdemo.so".toList := by
  refine ⟨?_, ?_, ?_, ?_, ?_, ?_, ?_, ?_⟩ <;> decide

theorem is_shareable_nil (data : Int) : is_shareable data [] = false := by
  unfold is_shareable strcmp_eq
  by_cases hd : data = 0 <;> simp [hd]

/-- On the empty line the loop body either has no defined behaviour or executes
`continue`, whatever the variables hold. -/
theorem parse_line_empty (ps data : Int) (fr : Frame) :
    (parse_line ps data ['\n'] fr).2 = .undefined ∨ (parse_line ps data ['\n'] fr).2 = .skip := by
  have hs : sscanf_maps (fgets_into fr.line ['\n']) { fr.vars with perms := [] } =
      (EOF, { fr.vars with perms := [] }) := rfl
  unfold parse_line
  dsimp only
  rw [hs]
  dsimp only
  have hsh := is_shareable_nil data
  repeat' split
  all_goals first
    | exact Or.inl rfl
    | exact Or.inr rfl

/-- C8 (evaluation at the failing input): on the well-formed line
`hex_offset_line`, whose file offset is `0001a000`, `sscanf` converts 4 fields
only: `%ld` reads the offset as the decimal number `0001` and the conversion of
the device number stops at `a`.  Whatever the variables held before the call,
`inode` and `prefix_len` keep those contents, so the inode 3411032 and the path
are not recovered.  When nothing is known about the uninitialised variables the
loop body has no defined behaviour; with the variables zero the region of the
line is skipped, and with what `demo_line` left in them it is scanned. -/
theorem C8_hex_offset_line (v : ScanVars) :
    (sscanf_maps hex_offset_line v).1 = 4 ∧
    (sscanf_maps hex_offset_line v).2.off = some 1 ∧
    (sscanf_maps hex_offset_line v).2.inode = v.inode ∧
    (sscanf_maps hex_offset_line v).2.prefix_len = v.prefix_len ∧
    (sscanf_maps hex_offset_line fresh_vars).2.inode ≠ some 3411032 ∧
    (∀ (pm kp : BinFile) (mp ps data : Int) (st : State) (buf : List Char),
      analyze_line pm kp mp ps data hex_offset_line { vars := fresh_vars, line := buf } st =
        .error (.undefined, st)) ∧
    (parse_line 4096 0 hex_offset_line (zero_frame 0)).2 = .skip ∧
    (parse_line 4096 0 hex_offset_line (parse_line 4096 0 demo_line fresh_frame).1).2 =
      .scan 0x7f0000000 10 := by
  exact ⟨rfl, rfl, rfl, rfl, by decide, fun _ _ _ _ _ _ _ => rfl, by decide, by decide⟩

/-- C9 (evaluation at the failing inputs): on the empty line `sscanf` returns
`EOF` and assigns nothing, on the line cut off before the inode it converts 6
fields and leaves `inode` and `prefix_len` as they were; in both cases the loop
body raises no fatal error but goes on with what the uninitialised variables
hold.  When nothing is known about them there is no defined behaviour.  For the
empty line the permission string is still empty, so that the filter of line 92
rejects the line whatever the other variables hold: the outcome is never a
fatal error, and after `demo_line` the empty line is skipped with the state
unchanged; the cut line is then filtered with the inode and the path that
`demo_line` left behind, and scanned. -/
theorem C9_malformed_line_not_fatal (v : ScanVars) :
    sscanf_maps ['\n'] v = (EOF, v) ∧
    (sscanf_maps cut_line v).1 = 6 ∧
    (sscanf_maps cut_line v).2.perms = ['r', '-', 'x', 'p'] ∧
    (sscanf_maps cut_line v).2.inode = v.inode ∧
    (sscanf_maps cut_line v).2.prefix_len = v.prefix_len ∧
    (∀ (pm kp : BinFile) (mp ps data : Int) (st : State) (buf : List Char),
      analyze_line pm kp mp ps data ['\n'] { vars := fresh_vars, line := buf } st =
        .error (.undefined, st) ∧
      analyze_line pm kp mp ps data cut_line { vars := fresh_vars, line := buf } st =
        .error (.undefined, st)) ∧
    (∀ (data inode : Int) (soname : List Char),
      region_selected data (sscanf_maps ['\n'] fresh_vars).2.perms inode soname = false) ∧
    (∀ (pm kp : BinFile) (mp ps data : Int) (fr : Frame) (st : State) (c : Check) (s : State),
      analyze_line pm kp mp ps data ['\n'] fr st ≠ .error (.fatal c, s)) ∧
    (∀ (pm kp : BinFile) (mp : Int) (st : State),
      (analyze_line pm kp mp 4096 0 ['\n'] (parse_line 4096 0 demo_line fresh_frame).1
        st).toOption.map Prod.snd = some st) ∧
    (parse_line 4096 0 cut_line (parse_line 4096 0 demo_line fresh_frame).1).2 =
      .scan 0x7f0000000 10 := by
  refine ⟨rfl, rfl, rfl, rfl, rfl, fun _ _ _ _ _ _ _ => ⟨rfl, rfl⟩,
    fun data inode soname => ?_, ?_, fun _ _ _ _ => rfl, by decide⟩
  · have h := region_selected_iff data [] inode soname
    cases hr : region_selected data [] inode soname with
    | false => exact hr
    | true =>
      have h2 := h.mp hr
      rcases h2.2.2 with h3 | ⟨_, h3⟩ <;> simp at h3
  · intro pm kp mp ps data fr st c s
    unfold analyze_line
    rcases hp : parse_line ps data ['\n'] fr with ⟨fr1, act⟩
    have hact := parse_line_empty ps data fr
    rw [hp] at hact
    rcases hact with hu | hk
    · have hu' : act = .undefined := hu
      subst hu'
      exact fun he => Abort.noConfusion (congrArg Prod.fst (Except.error.inj he))
    · have hk' : act = .skip := hk
      subst hk'
      exact fun he => Except.noConfusion he

end RamSavings
